import Mathlib

/-!
Verification of the SCOPE satellite simulator core against its specification.

Numeric model: the Python source computes with IEEE-754 double precision
(NumPy).  We embed those computations shallowly over an "exact reals with
special values" domain `F`: a machine value is either a finite rational, a
signed infinity, or NaN.  Finite arithmetic is exact (no rounding), except
that any operation whose exact finite result has magnitude at least 2^1024
overflows to a signed infinity, as in IEEE-754.  NaN and infinity
propagation follows the IEEE-754 rules implemented by NumPy.  The
transcendental library functions (sqrt, cos, sin) are parameters of the
model (`NumEnv`): the theorems assume only properties that the machine
library guarantees (range bounds; exactness of sqrt where a claim needs
it), and concrete instances are supplied for evaluation.
-/

namespace SCOPE

set_option maxRecDepth 100000

/-!
Kernel-reducible rational arithmetic.  The standard `Rat` operations are
marked irreducible, which blocks `decide`-style evaluation of the model on
closed inputs, so the model uses these equivalent implementations (the
bridge lemmas `qadd_eq` etc. below identify them with the field
operations of `ℚ` for algebraic reasoning).
-/

def qadd (a b : ℚ) : ℚ := mkRat (a.num * b.den + b.num * a.den) (a.den * b.den)

def qmul (a b : ℚ) : ℚ := mkRat (a.num * b.num) (a.den * b.den)

def qneg (a : ℚ) : ℚ := mkRat (-a.num) a.den

def qsub (a b : ℚ) : ℚ := qadd a (qneg b)

def qdiv (a b : ℚ) : ℚ := Rat.divInt (a.num * b.den) (a.den * b.num)

def qabs (a : ℚ) : ℚ := if a < 0 then qneg a else a

/-- Overflow threshold of IEEE-754 double precision: finite doubles have
magnitude below 2^1024; exact results at or beyond it round to infinity. -/
def MAXF : ℚ := ((2 ^ 1024 : ℕ) : ℚ)

/-- Machine floating-point value: finite (exact rational), +inf, -inf, or NaN. -/
inductive F where
  | fin (q : ℚ)
  | pinf
  | ninf
  | nan
  deriving DecidableEq

/-- Pack an exact rational result into `F`, overflowing to a signed infinity. -/
def mkF (q : ℚ) : F :=
  if MAXF ≤ q then F.pinf else if q ≤ qneg MAXF then F.ninf else F.fin q

/-- Machine addition. -/
def fadd : F → F → F
  | F.nan, _ => F.nan
  | _, F.nan => F.nan
  | F.pinf, F.ninf => F.nan
  | F.ninf, F.pinf => F.nan
  | F.pinf, _ => F.pinf
  | _, F.pinf => F.pinf
  | F.ninf, _ => F.ninf
  | _, F.ninf => F.ninf
  | F.fin a, F.fin b => mkF (qadd a b)

/-- Machine negation. -/
def fneg : F → F
  | F.fin q => F.fin (qneg q)
  | F.pinf => F.ninf
  | F.ninf => F.pinf
  | F.nan => F.nan

/-- Machine subtraction. -/
def fsub (x y : F) : F := fadd x (fneg y)

/-- Machine multiplication. -/
def fmul : F → F → F
  | F.nan, _ => F.nan
  | _, F.nan => F.nan
  | F.pinf, F.pinf => F.pinf
  | F.pinf, F.ninf => F.ninf
  | F.ninf, F.pinf => F.ninf
  | F.ninf, F.ninf => F.pinf
  | F.pinf, F.fin b => if b = 0 then F.nan else if 0 < b then F.pinf else F.ninf
  | F.ninf, F.fin b => if b = 0 then F.nan else if 0 < b then F.ninf else F.pinf
  | F.fin a, F.pinf => if a = 0 then F.nan else if 0 < a then F.pinf else F.ninf
  | F.fin a, F.ninf => if a = 0 then F.nan else if 0 < a then F.ninf else F.pinf
  | F.fin a, F.fin b => mkF (qmul a b)

/-- Machine division (the model drops the sign of zero: 1/0 gives +inf, as for
NumPy's +0.0). -/
def fdiv : F → F → F
  | F.nan, _ => F.nan
  | _, F.nan => F.nan
  | F.pinf, F.pinf => F.nan
  | F.pinf, F.ninf => F.nan
  | F.ninf, F.pinf => F.nan
  | F.ninf, F.ninf => F.nan
  | F.pinf, F.fin b => if 0 ≤ b then F.pinf else F.ninf
  | F.ninf, F.fin b => if 0 ≤ b then F.ninf else F.pinf
  | F.fin _, F.pinf => F.fin 0
  | F.fin _, F.ninf => F.fin 0
  | F.fin a, F.fin b =>
    if b = 0 then (if a = 0 then F.nan else if 0 < a then F.pinf else F.ninf)
    else mkF (qdiv a b)

/-- Machine strict less-than: false whenever an operand is NaN. -/
def fltb : F → F → Bool
  | F.nan, _ => false
  | _, F.nan => false
  | F.ninf, F.ninf => false
  | F.ninf, _ => true
  | _, F.ninf => false
  | F.pinf, _ => false
  | F.fin _, F.pinf => true
  | F.fin a, F.fin b => decide (a < b)

/-- Machine strict greater-than. -/
def fgtb (x y : F) : Bool := fltb y x

/-- Machine absolute value. -/
def fabsF : F → F
  | F.fin q => F.fin (qabs q)
  | F.pinf => F.pinf
  | F.ninf => F.pinf
  | F.nan => F.nan

/-- NaN test (np.isnan). -/
def isNan : F → Bool
  | F.nan => true
  | _ => false

/-- Infinity test (np.isinf). -/
def isInf : F → Bool
  | F.pinf => true
  | F.ninf => true
  | _ => false

/-- Model of the machine transcendental library: rational-valued sqrt, cos and
sin used on finite arguments.  Theorems assume of them only what the machine
library guarantees. -/
structure NumEnv where
  sqrtQ : ℚ → ℚ
  cosQ : ℚ → ℚ
  sinQ : ℚ → ℚ

/-- Fuelled integer Newton iteration for square roots (kernel-reducible). -/
def isqrtAux : ℕ → ℕ → ℕ → ℕ
  | 0, _, g => g
  | f + 1, n, g =>
    let gNext := (g + n / g) / 2
    if gNext < g then isqrtAux f n gNext else g

/-- Integer square root used by the concrete library instance. -/
def isqrtN (n : ℕ) : ℕ := if n = 0 then 0 else isqrtAux 1100 n n

/-- Rational square root used by the concrete library instance: exact on
ratios of perfect squares, which are the only points at which the closed
evaluations below consult it. -/
def sqrtQ0 (q : ℚ) : ℚ := mkRat (isqrtN q.num.toNat) (isqrtN q.den)

/-- Machine square root: NaN on negative or NaN input, +inf at +inf. -/
def fsqrt (env : NumEnv) : F → F
  | F.fin q => if q < 0 then F.nan else F.fin (env.sqrtQ q)
  | F.pinf => F.pinf
  | F.ninf => F.nan
  | F.nan => F.nan

/-- Machine cosine: NaN on infinite or NaN input. -/
def fcos (env : NumEnv) : F → F
  | F.fin q => F.fin (env.cosQ q)
  | _ => F.nan

/-- Machine sine: NaN on infinite or NaN input. -/
def fsin (env : NumEnv) : F → F
  | F.fin q => F.fin (env.sinQ q)
  | _ => F.nan

/-- Concrete library instance used to evaluate the model on closed inputs:
`Rat.sqrt` is exact on perfect squares (the only points where the closed
evaluations below consult it); cosine and sine are bounded stand-ins, never
consulted by the closed evaluations. -/
def defaultEnv : NumEnv :=
  { sqrtQ := sqrtQ0, cosQ := fun _ => 1, sinQ := fun _ => 0 }

/-- Vector of three machine values (np.ndarray of shape (3,)). -/
structure F3 where
  x : F
  y : F
  z : F
  deriving DecidableEq

/-- Vector of four machine values (scalar-first quaternion storage). -/
structure F4 where
  a : F
  b : F
  c : F
  d : F
  deriving DecidableEq

def zero3 : F3 := ⟨F.fin 0, F.fin 0, F.fin 0⟩

/-- Identity quaternion [1,0,0,0]. -/
def id4 : F4 := ⟨F.fin 1, F.fin 0, F.fin 0, F.fin 0⟩

def v3add (u v : F3) : F3 := ⟨fadd u.x v.x, fadd u.y v.y, fadd u.z v.z⟩

def v3sub (u v : F3) : F3 := ⟨fsub u.x v.x, fsub u.y v.y, fsub u.z v.z⟩

/-- Elementwise product (NumPy array * array). -/
def v3mulE (u v : F3) : F3 := ⟨fmul u.x v.x, fmul u.y v.y, fmul u.z v.z⟩

/-- Elementwise quotient (NumPy array / array). -/
def v3divE (u v : F3) : F3 := ⟨fdiv u.x v.x, fdiv u.y v.y, fdiv u.z v.z⟩

/-- Array times scalar (NumPy array * scalar). -/
def v3smul (v : F3) (s : F) : F3 := ⟨fmul v.x s, fmul v.y s, fmul v.z s⟩

/-- Scalar times array (NumPy scalar * array). -/
def v3smulL (s : F) (v : F3) : F3 := ⟨fmul s v.x, fmul s v.y, fmul s v.z⟩

/-- Array divided by scalar (NumPy array / scalar). -/
def v3sdiv (v : F3) (s : F) : F3 := ⟨fdiv v.x s, fdiv v.y s, fdiv v.z s⟩

/-- Cross product (np.cross). -/
def cross3 (u v : F3) : F3 :=
  ⟨fsub (fmul u.y v.z) (fmul u.z v.y),
   fsub (fmul u.z v.x) (fmul u.x v.z),
   fsub (fmul u.x v.y) (fmul u.y v.x)⟩

/-- Sum of squares of the components, as the machine computes it. -/
def normSq3 (v : F3) : F := fadd (fadd (fmul v.x v.x) (fmul v.y v.y)) (fmul v.z v.z)

/-- Euclidean norm (np.linalg.norm) of a 3-vector. -/
def norm3 (env : NumEnv) (v : F3) : F := fsqrt env (normSq3 v)

def v4sdiv (v : F4) (s : F) : F4 := ⟨fdiv v.a s, fdiv v.b s, fdiv v.c s, fdiv v.d s⟩

def normSq4 (v : F4) : F :=
  fadd (fadd (fadd (fmul v.a v.a) (fmul v.b v.b)) (fmul v.c v.c)) (fmul v.d v.d)

/-- Euclidean norm (np.linalg.norm) of a 4-vector. -/
def norm4 (env : NumEnv) (v : F4) : F := fsqrt env (normSq4 v)

def anyNan3 (v : F3) : Bool := isNan v.x || isNan v.y || isNan v.z

def anyNan4 (v : F4) : Bool := isNan v.a || isNan v.b || isNan v.c || isNan v.d

def anyInf3 (v : F3) : Bool := isInf v.x || isInf v.y || isInf v.z

def anyInf4 (v : F4) : Bool := isInf v.a || isInf v.b || isInf v.c || isInf v.d

/-!
Physics engine (src/physics_engine/engine.py).  Configuration fields are the
ones `propagate_attitude` reads from `SatelliteConfig` and
`PhysicalConstants`.
-/

/-- Engine configuration: moment of inertia (np.array([10,10,15]) by default),
reaction-wheel momentum cap, and the gravitational parameter used by the
gravity-gradient torque. -/
structure EngineCfg where
  moment_of_inertia : F3
  reaction_wheel_max_momentum : F
  EARTH_MU : F

/-- Values from `SatelliteConfig` / `PhysicalConstants` defaults. -/
def defaultCfg : EngineCfg :=
  { moment_of_inertia := ⟨F.fin 10, F.fin 10, F.fin 15⟩
    reaction_wheel_max_momentum := F.fin 10
    EARTH_MU := F.fin (mkRat 3986004418 10000) }

/-- Attitude state: quaternion (scalar first), body angular velocity,
reaction-wheel momentum. -/
structure AttitudeState where
  quaternion : F4
  angular_velocity : F3
  reaction_wheel_momentum : F3
  deriving DecidableEq

/-- Safe reset state: identity quaternion, zero rates, zero wheel momentum. -/
def resetState : AttitudeState := ⟨id4, zero3, zero3⟩

/-- PhysicsEngine.quaternion_multiply (w,x,y,z format, scalar first). -/
def quaternion_multiply (q1 q2 : F4) : F4 :=
  ⟨fsub (fsub (fsub (fmul q1.a q2.a) (fmul q1.b q2.b)) (fmul q1.c q2.c)) (fmul q1.d q2.d),
   fsub (fadd (fadd (fmul q1.a q2.b) (fmul q1.b q2.a)) (fmul q1.c q2.d)) (fmul q1.d q2.c),
   fadd (fadd (fsub (fmul q1.a q2.c) (fmul q1.b q2.d)) (fmul q1.c q2.a)) (fmul q1.d q2.b),
   fadd (fsub (fadd (fmul q1.a q2.d) (fmul q1.b q2.c)) (fmul q1.c q2.b)) (fmul q1.d q2.a)⟩

/-- PhysicsEngine.normalize_quaternion: identity below the 1e-10 norm guard,
otherwise divide by the computed norm. -/
def normalize_quaternion (env : NumEnv) (q : F4) : F4 :=
  let q_norm := norm4 env q
  if fltb q_norm (F.fin (mkRat 1 (10 ^ 10))) then id4 else v4sdiv q q_norm

/-- PhysicsEngine.calculate_gravity_gradient_torque.  The quaternion argument
is accepted and ignored exactly as in the source. -/
def calculate_gravity_gradient_torque (env : NumEnv) (cfg : EngineCfg)
    (position : F3) (quaternion : F4) : F3 :=
  let _ := quaternion
  let r_mag := norm3 env position
  if fltb r_mag (F.fin (mkRat 1 (10 ^ 10))) then zero3
  else
    let r_unit := v3sdiv position r_mag
    let coeff := fdiv (fmul (F.fin 3) cfg.EARTH_MU) (fmul (fmul r_mag r_mag) r_mag)
    let torque_magnitude := fmul (fmul coeff cfg.moment_of_inertia.z) (F.fin (mkRat 1 (10 ^ 12)))
    v3smul (cross3 r_unit ⟨F.fin 0, F.fin 0, F.fin 1⟩) torque_magnitude

/-- Normalized input quaternion `q` of propagate_attitude. -/
def att_q (env : NumEnv) (s : AttitudeState) : F4 :=
  normalize_quaternion env s.quaternion

/-- External torque after the optional gravity-gradient contribution. -/
def att_external (env : NumEnv) (cfg : EngineCfg) (s : AttitudeState)
    (external_torque : F3) (position : Option F3) : F3 :=
  match position with
  | none => external_torque
  | some p =>
    v3add external_torque (calculate_gravity_gradient_torque env cfg p (att_q env s))

/-- Magnetic-desaturation torque: active only above 70% of rated wheel
momentum, ramping linearly to full gain at 100%. -/
def att_desat (env : NumEnv) (cfg : EngineCfg) (s : AttitudeState) : F3 :=
  let h_rw_mag := norm3 env s.reaction_wheel_momentum
  let desat_ratio := fdiv h_rw_mag cfg.reaction_wheel_max_momentum
  if fgtb desat_ratio (F.fin (mkRat 7 10)) then
    let desat_strength := fdiv (fsub desat_ratio (F.fin (mkRat 7 10))) (F.fin (mkRat 3 10))
    v3smulL (fmul (F.fin (mkRat (-1) 50)) desat_strength) s.reaction_wheel_momentum
  else zero3

/-- Angular velocity after the explicit Euler step of propagate_attitude. -/
def att_new_w (env : NumEnv) (cfg : EngineCfg) (s : AttitudeState) (dt : F)
    (control_torque external_torque : F3) (position : Option F3) : F3 :=
  let w := s.angular_velocity
  let h_rw := s.reaction_wheel_momentum
  let I := cfg.moment_of_inertia
  let ext := att_external env cfg s external_torque position
  let desat_torque := att_desat env cfg s
  let total_external := v3sub (v3add ext desat_torque) (cross3 w h_rw)
  let total_torque := v3add control_torque total_external
  let dw_dt := v3divE (v3sub total_torque (cross3 w (v3mulE I w))) I
  v3add w (v3smul dw_dt dt)

/-- Reaction-wheel momentum update: control torque goes into the wheels,
desaturation comes out. -/
def att_new_h (env : NumEnv) (cfg : EngineCfg) (s : AttitudeState) (dt : F)
    (control_torque : F3) : F3 :=
  v3add s.reaction_wheel_momentum (v3smul (v3sub control_torque (att_desat env cfg s)) dt)

/-- Quaternion after the exponential-map update, before the final
renormalization. -/
def att_pre_q (env : NumEnv) (cfg : EngineCfg) (s : AttitudeState) (dt : F)
    (control_torque external_torque : F3) (position : Option F3) : F4 :=
  let q := att_q env s
  let new_w := att_new_w env cfg s dt control_torque external_torque position
  let w_mag := norm3 env new_w
  if fltb w_mag (F.fin (mkRat 1 (10 ^ 12))) then q
  else
    let theta := fmul w_mag dt
    let w_axis := v3sdiv new_w w_mag
    let half_theta := fmul (F.fin (mkRat 1 2)) theta
    let cos_half := fcos env half_theta
    let sin_half := fsin env half_theta
    let dq : F4 := ⟨cos_half, fmul sin_half w_axis.x, fmul sin_half w_axis.y,
                    fmul sin_half w_axis.z⟩
    quaternion_multiply dq q

/-- PhysicsEngine.propagate_attitude: NaN input guard, dynamics step, final
renormalization, NaN output guard. -/
def propagate_attitude (env : NumEnv) (cfg : EngineCfg) (s : AttitudeState)
    (dt : F) (control_torque external_torque : F3) (position : Option F3) :
    AttitudeState :=
  if anyNan4 s.quaternion || anyNan3 s.angular_velocity then resetState
  else
    let new_w := att_new_w env cfg s dt control_torque external_torque position
    let new_h_rw := att_new_h env cfg s dt control_torque
    let new_q := normalize_quaternion env
      (att_pre_q env cfg s dt control_torque external_torque position)
    if anyNan4 new_q || anyNan3 new_w || anyNan3 new_h_rw then resetState
    else ⟨new_q, new_w, new_h_rw⟩

/-- Exactness of the machine square root at one consulted value: on a finite
argument the library result is nonnegative and squares back to the argument.
(The IEEE library sqrt is correctly rounded, hence exact whenever the true
root is representable; the claims below consult this hypothesis only at such
points.) -/
def SqrtExactAt (env : NumEnv) : F → Prop
  | F.fin a => 0 ≤ env.sqrtQ a ∧ env.sqrtQ a * env.sqrtQ a = a
  | _ => True

/-- NaN test over a whole attitude state. -/
def anyNanState (s : AttitudeState) : Bool :=
  anyNan4 s.quaternion || anyNan3 s.angular_velocity ||
    anyNan3 s.reaction_wheel_momentum

/-- Infinity test over a whole attitude state. -/
def anyInfState (s : AttitudeState) : Bool :=
  anyInf4 s.quaternion || anyInf3 s.angular_velocity ||
    anyInf3 s.reaction_wheel_momentum

/-- Values that the machine sum-of-squares computation can produce: NaN,
+inf, or a nonnegative finite value. -/
def NNF (x : F) : Prop := x = F.nan ∨ x = F.pinf ∨ ∃ a : ℚ, 0 ≤ a ∧ x = F.fin a

/-!
Atmosphere model (PhysicsEngine.atmospheric_density).  The altitude input is
modelled as an exact rational; the exponential decay is over the reals.
-/

/-- Altitude breakpoints of the piecewise-exponential atmosphere table (km). -/
def h_layers : List ℚ :=
  [0, 25, 30, 40, 50, 60, 70, 80, 90, 100, 110, 120, 150, 180, 200, 250, 300,
   350, 400, 450, 500, 600, 700, 800, 900, 1000]

/-- Reference densities at the breakpoints (kg/m^3). -/
def rho_layers : List ℚ :=
  [mkRat 1225 (10 ^ 3), mkRat 3899 (10 ^ 5), mkRat 1774 (10 ^ 5),
   mkRat 3972 (10 ^ 6), mkRat 1057 (10 ^ 6), mkRat 3206 (10 ^ 7),
   mkRat 8770 (10 ^ 8), mkRat 1905 (10 ^ 8), mkRat 3396 (10 ^ 9),
   mkRat 5297 (10 ^ 10), mkRat 9661 (10 ^ 11), mkRat 2438 (10 ^ 11),
   mkRat 2076 (10 ^ 12), mkRat 5194 (10 ^ 13), mkRat 2541 (10 ^ 13),
   mkRat 6073 (10 ^ 14), mkRat 1916 (10 ^ 14), mkRat 7014 (10 ^ 15),
   mkRat 2803 (10 ^ 15), mkRat 1184 (10 ^ 15), mkRat 5215 (10 ^ 16),
   mkRat 1137 (10 ^ 16), mkRat 3070 (10 ^ 17), mkRat 1136 (10 ^ 17),
   mkRat 5759 (10 ^ 18), mkRat 3561 (10 ^ 18)]

/-- Zip consecutive breakpoints into layers (the `for i in range(len-1)` loop
visits (h[i], h[i+1], rho[i], rho[i+1]) in order). -/
def mkLayers : List ℚ → List ℚ → List (ℚ × ℚ × ℚ × ℚ)
  | h1 :: h2 :: hs, r1 :: r2 :: rs => (h1, h2, r1, r2) :: mkLayers (h2 :: hs) (r2 :: rs)
  | _, _ => []

/-!
Controller (src/controller/controller.py).  The Gaussian actuator-noise
sample drawn inside compute_orbit_control is an explicit parameter of the
model.
-/

/-- Orbital state: position (km, ECI) and velocity (km/s). -/
structure OrbitalState where
  position : F3
  velocity : F3
  deriving DecidableEq

/-- Controller.compute_orbit_control: proportional altitude control with a
5 km dead-band; `thrust_noise` is the Gaussian sample added outside the
dead-band. -/
def compute_orbit_control (env : NumEnv) (orbit_gain : F)
    (orbital_state : OrbitalState) (target_altitude earth_radius : F)
    (thrust_noise : F3) : F3 :=
  let r_mag := norm3 env orbital_state.position
  let current_altitude := fsub r_mag earth_radius
  let altitude_error := fsub target_altitude current_altitude
  if fltb (fabsF altitude_error) (F.fin 5) = true then zero3
  else
    let radial_direction := v3sdiv orbital_state.position r_mag
    let desired_thrust := v3smul (v3smul radial_direction altitude_error)
      orbit_gain
    v3add desired_thrust thrust_noise

/-!
Cyberattack model (src/cyberattack/manager.py, src/cyberattack/spoof.py,
src/dataclass/cyber.py).  Strings are lists of characters.  The Ed25519
scheme is modelled as ideal (perfectly unforgeable): a signature verifies
exactly when it was produced by the matching private key over exactly the
verified message; `os.urandom` signatures never verify; hex strings that do
not decode are a separate constructor (`bytes.fromhex` raising ValueError).
Randomness drawn inside the attack engine is an explicit oracle parameter;
library-dependent string formatting (md5 hex digest, `%.6f`, `str(float)`)
and the float parser are parameters or concrete models noted below.
-/

/-- Signature field of a command dict, as the verifier can distinguish it. -/
inductive Sig where
  | signed (sk : ℕ) (msg : List Char)
  | randomBytes (seed : ℕ)
  | badHex
  deriving DecidableEq

/-- Command dict: {"command": ..., "auth": ..., "signature": ...}. -/
structure Cmd where
  command : List Char
  auth : List Char
  signature : Sig
  deriving DecidableEq

/-- Ideal Ed25519 verification. -/
def sigVerify (pk : ℕ) (sig : Sig) (msg : List Char) : Bool :=
  match sig with
  | Sig.signed sk m => decide (sk = pk) && decide (m = msg)
  | _ => false

/-- Modelled from the spec: DefenseSystemConfig (its class definition is
missing from src/; main.py constructs it with `enable_key_auth=True` and
verify_command reads `getattr(defense_config, "enable_key_auth", True)`): a
configuration record carrying the key-authentication switch. -/
structure DefenseSystemConfig where
  enable_key_auth : Bool
  deriving DecidableEq

/-- CyberAttack enum (dataclass/cyber.py). -/
inductive CyberAttack where
  | NONE
  | COMMAND_SPOOFING
  | TELEMETRY_FALSIFICATION
  | DENIAL_OF_SERVICE
  | BATTERY_DEPLETION
  | MALICIOUS_DETUMBLE
  | ORBIT_MANIPULATION
  deriving DecidableEq

/-- CyberScenario dataclass. -/
structure CyberScenario where
  attack_type : CyberAttack
  start_time : ℚ
  duration : ℚ
  intensity : ℚ
  debug : Bool
  spoof_mode : List Char
  has_compromised_key : Bool
  deriving DecidableEq

/-- Telemetry dict restricted to the keys the attack engine recognizes;
`none` models an absent key. -/
structure Telemetry where
  battery_soc : Option ℚ
  altitude : Option ℚ
  power_consumption : Option ℚ
  deriving DecidableEq

/-- Python int() on a rational: truncation toward zero (Int.tdiv is
T-division). -/
def pyInt (q : ℚ) : ℤ := Int.tdiv q.num q.den

/-- Python str.split(sep) on a single-character separator. -/
def splitOnChar (sep : Char) : List Char → List (List Char)
  | [] => [[]]
  | c :: rest =>
    let r := splitOnChar sep rest
    if c = sep then [] :: r
    else (c :: r.headD []) :: r.tail

/-- Body before the first '|' (cmd_text.split('|', 1)[0] when '|' occurs,
otherwise the whole text), as verify_command computes it. -/
def bodyBeforeBar (l : List Char) : List Char :=
  if '|' ∈ l then (splitOnChar '|' l).getD 0 [] else l

/-- Python str.replace: replace every non-overlapping occurrence, leftmost
first (fuelled by the string length; an empty pattern is never produced by
the callers and is treated as no-op). -/
def replaceAllAux (pat repl : List Char) : ℕ → List Char → List Char
  | 0, s => s
  | _ + 1, [] => []
  | fuel + 1, c :: rest =>
    if pat ≠ [] ∧ pat.isPrefixOf (c :: rest) then
      repl ++ replaceAllAux pat repl fuel ((c :: rest).drop pat.length)
    else c :: replaceAllAux pat repl fuel rest

def replaceAll (pat repl s : List Char) : List Char :=
  replaceAllAux pat repl s.length s

def isDigit (c : Char) : Bool := decide ('0' ≤ c) && decide (c ≤ '9')

def digitsToNat (l : List Char) : ℕ :=
  l.foldl (fun acc c => acc * 10 + (c.toNat - '0'.toNat)) 0

/-- Unsigned decimal literal: digits, optionally with one point; at least one
digit overall. -/
def parseUnsigned (l : List Char) : Option ℚ :=
  match splitOnChar '.' l with
  | [ip] =>
    if ip ≠ [] ∧ ip.all isDigit = true then some (mkRat (digitsToNat ip) 1)
    else none
  | [ip, fp] =>
    if (ip ≠ [] ∨ fp ≠ []) ∧ ip.all isDigit = true ∧ fp.all isDigit = true then
      some (mkRat (digitsToNat ip * 10 ^ fp.length + digitsToNat fp)
        (10 ^ fp.length))
    else none
  | _ => none

def parseExp (l : List Char) : Option ℤ :=
  match l with
  | '+' :: r => if r ≠ [] ∧ r.all isDigit = true then some (digitsToNat r) else none
  | '-' :: r => if r ≠ [] ∧ r.all isDigit = true then some (-(digitsToNat r : ℤ))
      else none
  | r => if r ≠ [] ∧ r.all isDigit = true then some (digitsToNat r) else none

def qpow10 (z : ℤ) : ℚ :=
  if 0 ≤ z then mkRat (10 ^ z.toNat) 1 else mkRat 1 (10 ^ (-z).toNat)

/-- Model of Python float(s) on plain decimal/exponent literals (named
specials such as inf/nan, underscores and surrounding whitespace are outside
the modelled fragment; failure models the ValueError path). -/
def parseFloat (l : List Char) : Option ℚ :=
  let l' := l.map (fun c => if c = 'E' then 'e' else c)
  match splitOnChar 'e' l' with
  | [m] =>
    match m with
    | '+' :: r => parseUnsigned r
    | '-' :: r => (parseUnsigned r).map qneg
    | r => parseUnsigned r
  | [m, ex] =>
    let base :=
      match m with
      | '+' :: r => parseUnsigned r
      | '-' :: r => (parseUnsigned r).map qneg
      | r => parseUnsigned r
    match base, parseExp ex with
    | some v, some z => some (qmul v (qpow10 z))
    | _, _ => none
  | _ => none

def natDigitsAux : ℕ → ℕ → List Char
  | 0, _ => []
  | fuel + 1, n =>
    if n = 0 then []
    else natDigitsAux fuel (n / 10) ++ [Char.ofNat ('0'.toNat + n % 10)]

def natToDigits (n : ℕ) : List Char :=
  if n = 0 then ['0'] else natDigitsAux (n + 1) n

def fracDigits : ℕ → ℚ → List Char
  | 0, _ => []
  | fuel + 1, q =>
    if q = 0 then []
    else
      let q10 := qmul q (mkRat 10 1)
      let d := Int.tdiv q10.num (q10.den : ℤ)
      Char.ofNat ('0'.toNat + d.toNat) :: fracDigits fuel (qsub q10 (mkRat d 1))

/-- Model of Python str(float) for exactly-representable short decimals in
the plain-notation range (no scientific notation): sign, integer part,
point, fraction digits without trailing zeros (".0" when integral).  It
agrees with CPython's repr at every value where the closed evaluations below
consult it. -/
def decimalRepr (q : ℚ) : List Char :=
  let sgn : List Char := if q < 0 then ['-'] else []
  let p := qabs q
  let ip := Int.tdiv p.num (p.den : ℤ)
  let frac := qsub p (mkRat ip 1)
  let fds := fracDigits 17 frac
  sgn ++ natToDigits ip.toNat ++ '.' :: (if fds = [] then ['0'] else fds)

/-- Library-dependent helpers of the attack engine: md5 hex digest prefix,
"%.6f" formatting, and str(float).  They are parameters of the model; a
concrete instance is supplied for closed evaluation. -/
structure CyberEnv where
  md5hex6 : List Char → List Char
  fmt6 : ℚ → List Char
  floatStr : ℚ → List Char

/-- Randomness oracle for the attack engine, indexed by draw position. -/
structure SpoofRand where
  typePick : ℕ → Fin 6
  valPick : ℕ → ℚ
  posPick : ℕ → ℕ
  urand : ℕ → ℕ
  keepTypePick : ℕ → Bool
  idxPick : ℕ → ℕ

/-- Concrete instance for closed evaluation (the hash digest and formatter
values are irrelevant to every claim; str(float) is `decimalRepr`). -/
def defaultCyberEnv : CyberEnv :=
  { md5hex6 := fun _ => "abc123".toList
    fmt6 := fun q => decimalRepr q
    floatStr := decimalRepr }

/-- Concrete randomness oracle for closed evaluation. -/
def defaultRand : SpoofRand :=
  { typePick := fun _ => (0 : Fin 6)
    valPick := fun _ => 0
    posPick := fun _ => 0
    urand := fun k => k
    keepTypePick := fun _ => false
    idxPick := fun _ => 0 }

/-- CyberAttackManager.get_active_attack: first scenario in list order whose
half-open window contains the time. -/
def get_active_attack (scenarios : List CyberScenario) (current_time : ℚ) :
    Option CyberScenario :=
  match scenarios with
  | [] => none
  | sc :: rest =>
    if sc.start_time ≤ current_time ∧
        current_time < qadd sc.start_time sc.duration then some sc
    else get_active_attack rest current_time

/-- CommandSpoofer.allowed_cmd_types. -/
def allowed_cmd_types : List (List Char) :=
  ["THRUST_X".toList, "THRUST_Y".toList, "THRUST_Z".toList,
   "RW_TORQUE_X".toList, "RW_TORQUE_Y".toList, "RW_TORQUE_Z".toList]

/-- CommandSpoofer.make_spoofed_cmd_dict: value drawn from the oracle (the
type-dependent value distributions select ranges only and are not
modelled), body formatted to 6 decimals, md5 checksum appended, signed with
the real private key or with random bytes. -/
def make_spoofed_cmd_dict (cenv : CyberEnv) (rnd : SpoofRand) (k : ℕ)
    (cmd_type : List Char) (use_real_signer : Bool) (sk : ℕ) : Cmd :=
  let val := rnd.valPick k
  let cmd_body := cmd_type ++ ':' :: cenv.fmt6 val
  let cmd_with_md5 := cmd_body ++ '|' :: cenv.md5hex6 cmd_body
  let sig := if use_real_signer then Sig.signed sk cmd_with_md5
    else Sig.randomBytes (rnd.urand k)
  { command := cmd_with_md5, auth := "ed25519".toList, signature := sig }

/-- Insert-mode loop of CommandSpoofer.spoof: each spoofed command is placed
at the oracle's position (random.randint(0, len) guarantees the position is
within bounds, which the model enforces with `min`). -/
def spoofInsertLoop (cenv : CyberEnv) (rnd : SpoofRand) (sk : ℕ)
    (compromised : Bool) : ℕ → ℕ → List Cmd → List Cmd
  | _, 0, acc => acc
  | k, n + 1, acc =>
    let spoof_type := allowed_cmd_types.getD (rnd.typePick k) []
    let c := make_spoofed_cmd_dict cenv rnd k spoof_type compromised sk
    spoofInsertLoop cenv rnd sk compromised (k + 1) n
      (acc.insertIdx (min (rnd.posPick k) acc.length) c)

/-- Append-mode loop of CommandSpoofer.spoof. -/
def spoofAppendLoop (cenv : CyberEnv) (rnd : SpoofRand) (sk : ℕ)
    (compromised : Bool) : ℕ → ℕ → List Cmd → List Cmd
  | _, 0, acc => acc
  | k, n + 1, acc =>
    let spoof_type := allowed_cmd_types.getD (rnd.typePick k) []
    spoofAppendLoop cenv rnd sk compromised (k + 1) n
      (acc ++ [make_spoofed_cmd_dict cenv rnd k spoof_type compromised sk])

/-- One replacement of replace-mode (the sampled index comes from the
oracle; random.sample guarantees distinct in-range indices, which the model
does not need to enforce for any claim). -/
def spoofReplaceOne (cenv : CyberEnv) (rnd : SpoofRand) (sk : ℕ)
    (compromised : Bool) (k : ℕ) (acc : List Cmd) : List Cmd :=
  let idx := rnd.idxPick k
  match acc.getD idx ⟨[], [], Sig.badHex⟩ with
  | orig =>
    let orig_type := (splitOnChar ':' orig.command).getD 0 []
    let spoof_type :=
      if orig_type ∈ allowed_cmd_types ∧ rnd.keepTypePick k = true then orig_type
      else allowed_cmd_types.getD (rnd.typePick k) []
    acc.set idx (make_spoofed_cmd_dict cenv rnd k spoof_type compromised sk)

def spoofReplaceLoop (cenv : CyberEnv) (rnd : SpoofRand) (sk : ℕ)
    (compromised : Bool) : ℕ → ℕ → List Cmd → List Cmd
  | _, 0, acc => acc
  | k, n + 1, acc =>
    spoofReplaceLoop cenv rnd sk compromised (k + 1) n
      (spoofReplaceOne cenv rnd sk compromised k acc)

/-- Number of spoofed commands: int(len(base) * intensity), with a floor of
one when the intensity is positive but the product truncates to zero. -/
def num_to_generate (base_len : ℕ) (intensity : ℚ) : ℕ :=
  let n := (pyInt (qmul (mkRat base_len 1) intensity)).toNat
  if 0 < intensity ∧ n = 0 then 1 else n

/-- CommandSpoofer.spoof. -/
def spoof (cenv : CyberEnv) (rnd : SpoofRand) (attack : CyberScenario)
    (sk : ℕ) (base_commands : List Cmd) (modified_commands : List Cmd) :
    List Cmd :=
  let num := num_to_generate base_commands.length attack.intensity
  if attack.spoof_mode = "insert".toList then
    spoofInsertLoop cenv rnd sk attack.has_compromised_key 0 num
      modified_commands
  else if attack.spoof_mode = "replace".toList then
    spoofReplaceLoop cenv rnd sk attack.has_compromised_key 0
      (min num modified_commands.length) modified_commands
  else
    spoofAppendLoop cenv rnd sk attack.has_compromised_key 0 num
      modified_commands

/-- MALICIOUS_DETUMBLE transformation of one command dict: parse the value
after the first ':' and before '|', then replace every occurrence of
str(value) by str(-value * 1.5); parse failures leave the command unchanged
(the swallowed exception). -/
def detumbleOne (cenv : CyberEnv) (c : Cmd) : Cmd :=
  if List.IsInfix ("RW_TORQUE".toList) c.command then
    let parts := splitOnChar ':' c.command
    if 2 ≤ parts.length then
      match parseFloat ((splitOnChar '|' (parts.getD 1 [])).getD 0 []) with
      | some v =>
        { c with
          command := replaceAll (cenv.floatStr v)
              (cenv.floatStr (qmul (qneg v) (mkRat 15 10))) c.command }
      | none => c
    else c
  else c

/-- ORBIT_MANIPULATION forged command (the f-string is the constant
"THRUST_Z:-0.005000"). -/
def orbitManipCmd (cenv : CyberEnv) (rnd : SpoofRand) (i : ℕ) : Cmd :=
  let malicious_cmd := "THRUST_Z:-0.005000".toList
  let cmd_with_md5 := malicious_cmd ++ '|' :: cenv.md5hex6 malicious_cmd
  { command := cmd_with_md5, auth := "ed25519".toList,
    signature := Sig.randomBytes (rnd.urand i) }

/-- CyberAttackManager.apply_attack.  `none` models the uncaught
AttributeError raised when the spoofing branch runs without a signer key
(CommandSpoofer.__init__ calls signer_private_key.public_key()). -/
def apply_attack (cenv : CyberEnv) (rnd : SpoofRand) (base_error_rate : ℚ)
    (attack : CyberScenario) (current_time : ℚ) (commands : List Cmd)
    (telemetry_data : Telemetry) (signer_private_key : Option ℕ) :
    Option (List Cmd × Telemetry × ℚ) :=
  if current_time < attack.start_time ∨
      qadd attack.start_time attack.duration < current_time then
    some (commands, telemetry_data, base_error_rate)
  else
    match attack.attack_type with
    | CyberAttack.COMMAND_SPOOFING =>
      match signer_private_key with
      | none => none
      | some sk =>
        some (spoof cenv rnd attack sk commands commands, telemetry_data,
          base_error_rate)
    | CyberAttack.TELEMETRY_FALSIFICATION =>
      some (commands,
        { telemetry_data with
          battery_soc := telemetry_data.battery_soc.map
            (fun v => qmul v (qadd (mkRat 1 1) (qmul attack.intensity (mkRat 5 10))))
          altitude := telemetry_data.altitude.map
            (fun v => qmul v (qadd (mkRat 1 1) (qmul attack.intensity (mkRat 1 10)))) },
        base_error_rate)
    | CyberAttack.DENIAL_OF_SERVICE =>
      let error_rate := qadd base_error_rate (qmul attack.intensity (mkRat 7 10))
      let num_to_drop := (pyInt (qmul (mkRat commands.length 1)
        attack.intensity)).toNat
      some (commands.drop num_to_drop, telemetry_data, error_rate)
    | CyberAttack.BATTERY_DEPLETION =>
      some (commands,
        { telemetry_data with
          power_consumption := some (qmul
            (telemetry_data.power_consumption.getD (mkRat 50 1))
            (qadd (mkRat 1 1) (qmul attack.intensity (mkRat 2 1)))) },
        base_error_rate)
    | CyberAttack.MALICIOUS_DETUMBLE =>
      some (commands.map (detumbleOne cenv), telemetry_data, base_error_rate)
    | CyberAttack.ORBIT_MANIPULATION =>
      some (commands ++ (List.range (pyInt (qmul attack.intensity
        (mkRat 3 1))).toNat).map (orbitManipCmd cenv rnd), telemetry_data,
        base_error_rate)
    | CyberAttack.NONE => some (commands, telemetry_data, base_error_rate)

/-- Administratively disabled authentication: a defense config is present
and its enable_key_auth flag is off (the source's
`defense_config is not None and not getattr(..., "enable_key_auth", True)`). -/
def auth_disabled (defense_config : Option DefenseSystemConfig) : Bool :=
  match defense_config with
  | some cfg => !cfg.enable_key_auth
  | none => false

/-- CyberAttackManager.verify_command. -/
def verify_command (defense_config : Option DefenseSystemConfig)
    (public_key : Option ℕ) (msg : Cmd) : Option (List Char) :=
  if auth_disabled defense_config = true then
    some (bodyBeforeBar msg.command)
  else if msg.auth ≠ "ed25519".toList then none
  else
    match public_key with
    | none => none
    | some pk =>
      match msg.signature with
      | Sig.badHex => none
      | Sig.randomBytes _ => none
      | Sig.signed sk m =>
        if sk = pk ∧ m = msg.command then some (bodyBeforeBar msg.command)
        else none

/-- Scenario used by the concrete examples of claim C6: window [0, 500). -/
def scenarioA : CyberScenario :=
  { attack_type := CyberAttack.DENIAL_OF_SERVICE, start_time := 0,
    duration := 500, intensity := mkRat 1 2, debug := false,
    spoof_mode := "insert".toList, has_compromised_key := false }

/-- Scenario used by the concrete examples of claim C6: window [5000, 8000). -/
def scenarioB : CyberScenario :=
  { attack_type := CyberAttack.COMMAND_SPOOFING, start_time := 5000,
    duration := 3000, intensity := mkRat 1 2, debug := false,
    spoof_mode := "insert".toList, has_compromised_key := false }

/-- Concrete active DoS scenario for the C7 witness. -/
def dosScenario : CyberScenario :=
  { attack_type := CyberAttack.DENIAL_OF_SERVICE, start_time := 0,
    duration := 100, intensity := mkRat 9 10, debug := false,
    spoof_mode := "insert".toList, has_compromised_key := false }

/-- Concrete command dict for the C7 witness. -/
def dummyCmd : Cmd :=
  ⟨"THRUST_X:0.000000|aaaaaa".toList, "ed25519".toList, Sig.badHex⟩

/-- Concrete active MALICIOUS_DETUMBLE scenario for claim C9. -/
def detumbleScenario : CyberScenario :=
  { attack_type := CyberAttack.MALICIOUS_DETUMBLE, start_time := 0,
    duration := 100, intensity := mkRat 1 2, debug := false,
    spoof_mode := "insert".toList, has_compromised_key := false }

/-- RW_TORQUE command whose value text "00.500000" differs from
str(float) of its parsed value, used as the C9 counterexample input. -/
def detumbleCmd : Cmd :=
  ⟨"RW_TORQUE_X:00.500000|abc123".toList, "ed25519".toList, Sig.badHex⟩

/-- The spoofed commands generated by a run of the insert/append loop, in
generation order: draw k yields the command built from the k-th oracle
values. -/
def spoofGenerated (cenv : CyberEnv) (rnd : SpoofRand) (sk : ℕ)
    (compromised : Bool) : ℕ → ℕ → List Cmd
  | _, 0 => []
  | k, n + 1 =>
    make_spoofed_cmd_dict cenv rnd k
      (allowed_cmd_types.getD (rnd.typePick k) []) compromised sk ::
      spoofGenerated cenv rnd sk compromised (k + 1) n

/-- Concrete active insert-mode spoofing scenario with a compromised key,
for the C5 witness. -/
def spoofScenario : CyberScenario :=
  { attack_type := CyberAttack.COMMAND_SPOOFING, start_time := 0,
    duration := 100, intensity := mkRat 1 2, debug := false,
    spoof_mode := "insert".toList, has_compromised_key := true }


/-!
UTF-8 model for corrupt_message (src/cyberattack/manager.py).  Bytes are
naturals below 256; a Python string is a list of Lean Char (Lean Char
carries exactly the Unicode scalar values, so str.encode('utf-8') is
total on the carrier).  The decoder is CPython's errors='replace'
decoder: maximal valid subparts of an ill-formed sequence are consumed
together and replaced by one U+FFFD.
-/

/-- UTF-8 encoding of one Unicode scalar value. -/
def encChar (n : ℕ) : List ℕ :=
  if n < 0x80 then [n]
  else if n < 0x800 then [0xC0 + n / 64, 0x80 + n % 64]
  else if n < 0x10000 then
    [0xE0 + n / 4096, 0x80 + n / 64 % 64, 0x80 + n % 64]
  else
    [0xF0 + n / 262144, 0x80 + n / 4096 % 64, 0x80 + n / 64 % 64,
      0x80 + n % 64]

/-- str.encode('utf-8'). -/
def utf8Encode (s : List Char) : List ℕ :=
  (s.map (fun c => encChar c.toNat)).flatten

/-- Continuation byte 0x80-0xBF. -/
def cont (b : ℕ) : Bool := decide (0x80 ≤ b) && decide (b < 0xC0)

/-- Admissible second byte of a three-byte sequence (E0 excludes overlong,
ED excludes surrogates). -/
def snd3ok (b0 b1 : ℕ) : Bool :=
  if b0 = 0xE0 then decide (0xA0 ≤ b1) && decide (b1 < 0xC0)
  else if b0 = 0xED then decide (0x80 ≤ b1) && decide (b1 < 0xA0)
  else cont b1

/-- Admissible second byte of a four-byte sequence (F0 excludes overlong,
F4 caps at U+10FFFF). -/
def snd4ok (b0 b1 : ℕ) : Bool :=
  if b0 = 0xF0 then decide (0x90 ≤ b1) && decide (b1 < 0xC0)
  else if b0 = 0xF4 then decide (0x80 ≤ b1) && decide (b1 < 0x90)
  else cont b1

/-- The replacement character U+FFFD. -/
def repl : Char := '\uFFFD'

/-- CPython bytes.decode('utf-8', errors='replace'), fuelled by the byte
count: each step consumes the next character or the next maximal invalid
subpart (one to three bytes) and emits one character. -/
def decodeAux : ℕ → List ℕ → List Char
  | 0, _ => []
  | _ + 1, [] => []
  | fuel + 1, b0 :: rest =>
    if b0 < 0x80 then Char.ofNat b0 :: decodeAux fuel rest
    else if b0 < 0xC2 then repl :: decodeAux fuel rest
    else if b0 < 0xE0 then
      match rest with
      | [] => [repl]
      | b1 :: rest1 =>
        if cont b1 = true then
          Char.ofNat ((b0 - 0xC0) * 64 + (b1 - 0x80)) :: decodeAux fuel rest1
        else repl :: decodeAux fuel (b1 :: rest1)
    else if b0 < 0xF0 then
      match rest with
      | [] => [repl]
      | b1 :: rest1 =>
        if snd3ok b0 b1 = true then
          match rest1 with
          | [] => [repl]
          | b2 :: rest2 =>
            if cont b2 = true then
              Char.ofNat ((b0 - 0xE0) * 4096 + (b1 - 0x80) * 64 + (b2 - 0x80)) ::
                decodeAux fuel rest2
            else repl :: decodeAux fuel (b2 :: rest2)
        else repl :: decodeAux fuel (b1 :: rest1)
    else if b0 < 0xF5 then
      match rest with
      | [] => [repl]
      | b1 :: rest1 =>
        if snd4ok b0 b1 = true then
          match rest1 with
          | [] => [repl]
          | b2 :: rest2 =>
            if cont b2 = true then
              match rest2 with
              | [] => [repl]
              | b3 :: rest3 =>
                if cont b3 = true then
                  Char.ofNat ((b0 - 0xF0) * 262144 + (b1 - 0x80) * 4096 +
                    (b2 - 0x80) * 64 + (b3 - 0x80)) :: decodeAux fuel rest3
                else repl :: decodeAux fuel (b3 :: rest3)
            else repl :: decodeAux fuel (b2 :: rest2)
        else repl :: decodeAux fuel (b1 :: rest1)
    else repl :: decodeAux fuel rest

def pyDecode (X : List ℕ) : List Char := decodeAux X.length X

/-- A segmentation of a byte string certifying a decode result: every
character owns a contiguous span; a character produced from a valid
sequence owns exactly its UTF-8 encoding; a replacement character owns
its encoding or an invalid subpart of one to three bytes, and a
three-byte invalid subpart is a truncated four-byte sequence (its first
byte is in [0xF0, 0xF5)). -/
inductive SegList : List ℕ → List Char → Prop where
  | nil : SegList [] []
  | chr (c : Char) (t : List ℕ) (s : List Char) (h : SegList t s) :
      SegList (encChar c.toNat ++ t) (c :: s)
  | bad (xs t : List ℕ) (s : List Char) (h1 : 1 ≤ xs.length)
      (h3 : xs.length ≤ 3)
      (hlead : xs.length = 3 → ∃ b1 b2 b3, xs = [b1, b2, b3] ∧
        0xF0 ≤ b1 ∧ b1 < 0xF5)
      (h : SegList t s) : SegList (xs ++ t) (repl :: s)

/-- Bit count of a byte (valid for naturals below 256). -/
def popcnt8 (n : ℕ) : ℕ :=
  n % 2 + n / 2 % 2 + n / 4 % 2 + n / 8 % 2 + n / 16 % 2 + n / 32 % 2 +
    n / 64 % 2 + n / 128 % 2

/-- Number of differing bits between two byte strings of equal length. -/
def bitDiff : List ℕ → List ℕ → ℕ
  | [], _ => 0
  | _ :: _, [] => 0
  | x :: xs, y :: ys => popcnt8 (Nat.xor x y) + bitDiff xs ys

/-- One step of the corruption loop: byte_array[bit_index // 8] ^=
(1 << (bit_index % 8)). -/
def flipBit (X : List ℕ) (bit : ℕ) : List ℕ :=
  X.set (bit / 8) (Nat.xor (X.getD (bit / 8) 0) (2 ^ (bit % 8)))

/-- The corruption loop over the sampled bit indices, in draw order. -/
def flipBits (X : List ℕ) : List ℕ → List ℕ
  | [] => X
  | b :: rest => flipBits (flipBit X b) rest

/-- Randomness oracle of corrupt_message: the random.random() draw, the
random.sample draw of distinct bit indices (its size min(flips,
total_bits) and ranges are hypotheses where used), and the fallback's
position and alphabet choice. -/
structure CorruptRand where
  randFloat : ℚ
  bits : List ℕ
  fallPos : ℕ
  fallChoice : ℕ

/-- The fallback substitution alphabet of corrupt_message. -/
def fallbackAlphabet : List Char := "XYZ123!@#".toList

/-- CyberAttackManager.corrupt_message on a command dict: under the
error-rate draw, encode the command, flip the sampled bits, decode with
replacement; if the decode equals the original, substitute one character
from the fallback alphabet at the sampled position; the signature and
auth fields are left as-is. -/
def corrupt_message (rnd : CorruptRand) (c : Cmd) (error_rate : ℚ) : Cmd :=
  if rnd.randFloat < error_rate ∧ 0 < c.command.length then
    let corrupted := pyDecode (flipBits (utf8Encode c.command) rnd.bits)
    if corrupted = c.command then
      { c with
        command := c.command.take rnd.fallPos ++
          [fallbackAlphabet.getD rnd.fallChoice 'X'] ++
          c.command.drop (rnd.fallPos + 1) }
    else { c with command := corrupted }
  else c


theorem num_eq_mul_den (a : ℚ) : (a.num : ℚ) = a * a.den :=
  (div_eq_iff (Nat.cast_ne_zero.mpr a.den_nz)).mp (Rat.num_div_den a)

theorem qadd_eq (a b : ℚ) : qadd a b = a + b := by
  have ha : (a.den : ℚ) ≠ 0 := Nat.cast_ne_zero.mpr a.den_nz
  have hb : (b.den : ℚ) ≠ 0 := Nat.cast_ne_zero.mpr b.den_nz
  rw [qadd, Rat.mkRat_eq_divInt, Rat.divInt_eq_div]
  push_cast
  rw [div_eq_iff (mul_ne_zero ha hb), num_eq_mul_den a, num_eq_mul_den b]
  ring

theorem qmul_eq (a b : ℚ) : qmul a b = a * b := by
  have ha : (a.den : ℚ) ≠ 0 := Nat.cast_ne_zero.mpr a.den_nz
  have hb : (b.den : ℚ) ≠ 0 := Nat.cast_ne_zero.mpr b.den_nz
  rw [qmul, Rat.mkRat_eq_divInt, Rat.divInt_eq_div]
  push_cast
  rw [div_eq_iff (mul_ne_zero ha hb), num_eq_mul_den a, num_eq_mul_den b]
  ring

theorem qneg_eq (a : ℚ) : qneg a = -a := by
  have ha : (a.den : ℚ) ≠ 0 := Nat.cast_ne_zero.mpr a.den_nz
  rw [qneg, Rat.mkRat_eq_divInt, Rat.divInt_eq_div]
  push_cast
  rw [div_eq_iff ha, num_eq_mul_den a]
  ring

theorem qsub_eq (a b : ℚ) : qsub a b = a - b := by
  rw [qsub, qadd_eq, qneg_eq, sub_eq_add_neg]

theorem qdiv_eq (a b : ℚ) : qdiv a b = a / b := by
  have ha : (a.den : ℚ) ≠ 0 := Nat.cast_ne_zero.mpr a.den_nz
  rw [qdiv, Rat.divInt_eq_div]
  push_cast
  rcases eq_or_ne b 0 with rfl | hb0
  · simp
  · have hbn : (b.num : ℚ) ≠ 0 := by
      exact_mod_cast Rat.num_ne_zero.mpr hb0
    rw [div_eq_div_iff (mul_ne_zero ha hbn) hb0, num_eq_mul_den a, num_eq_mul_den b]
    ring

theorem qabs_eq (a : ℚ) : qabs a = |a| := by
  rw [qabs]
  rcases lt_or_le a 0 with h | h
  · rw [if_pos h, qneg_eq, abs_of_neg h]
  · rw [if_neg (not_lt.mpr h), abs_of_nonneg h]

/-- C1 counterexample.  With finite inputs (identity quaternion, zero rates,
zero wheel momentum, dt = 2, control torque (1.7e308, 0, 0) and external
torque (-1.7e308, 0, 0), no position), the control and external torques
cancel in the angular-velocity update, but the wheel-momentum update
h + control*dt overflows to +inf.  The NaN-only output guard does not fire,
so the returned state contains +inf and is not the safe reset state,
refuting the claim that any Inf in the computed outputs yields the reset
state.  (The trace stays on the `w_mag < 1e-12` branch, so the cos/sin
stand-ins of `defaultEnv` are never consulted; sqrt is consulted only at 0
and 1, where `sqrtQ0` is exact.) -/
theorem C1_counterexample :
    anyInfState (propagate_attitude defaultEnv defaultCfg ⟨id4, zero3, zero3⟩
      (F.fin 2) ⟨F.fin (mkRat (17 * 10 ^ 307) 1), F.fin 0, F.fin 0⟩
      ⟨F.fin (mkRat (-(17 * 10 ^ 307)) 1), F.fin 0, F.fin 0⟩ none) = true ∧
    propagate_attitude defaultEnv defaultCfg ⟨id4, zero3, zero3⟩
      (F.fin 2) ⟨F.fin (mkRat (17 * 10 ^ 307) 1), F.fin 0, F.fin 0⟩
      ⟨F.fin (mkRat (-(17 * 10 ^ 307)) 1), F.fin 0, F.fin 0⟩ none ≠ resetState := by
  decide

/-- C1 (amended).  The guards of propagate_attitude detect NaN only: for every
library instance, configuration and input, (a) if the input quaternion or
angular velocity contains NaN the result is exactly the safe reset state, and
(b) the returned state never contains NaN (any NaN in the computed outputs is
replaced by the reset state).  Inf is not detected and can be returned
(see the counterexample). -/
theorem C1_theorem (env : NumEnv) (cfg : EngineCfg) (s : AttitudeState) (dt : F)
    (control_torque external_torque : F3) (position : Option F3) :
    ((anyNan4 s.quaternion || anyNan3 s.angular_velocity) = true →
      propagate_attitude env cfg s dt control_torque external_torque position =
        resetState) ∧
    anyNanState (propagate_attitude env cfg s dt control_torque external_torque
      position) = false := by
  constructor
  · intro h
    simp [propagate_attitude, h]
  · by_cases h1 : (anyNan4 s.quaternion || anyNan3 s.angular_velocity) = true
    · simp [propagate_attitude, h1]
      decide
    · simp only [propagate_attitude, if_neg h1]
      by_cases h2 : (anyNan4 (normalize_quaternion env
            (att_pre_q env cfg s dt control_torque external_torque position)) ||
          anyNan3 (att_new_w env cfg s dt control_torque external_torque
            position) ||
          anyNan3 (att_new_h env cfg s dt control_torque)) = true
      · simp only [if_pos h2]
        decide
      · simp only [if_neg h2]
        simpa [anyNanState] using h2

/-- C1 witness: the amended theorem applied at a concrete NaN input. -/
theorem C1_witness :
    propagate_attitude defaultEnv defaultCfg
      ⟨⟨F.nan, F.fin 0, F.fin 0, F.fin 0⟩, zero3, zero3⟩ (F.fin 1) zero3 zero3
      none = resetState ∧
    anyNanState (propagate_attitude defaultEnv defaultCfg
      ⟨⟨F.nan, F.fin 0, F.fin 0, F.fin 0⟩, zero3, zero3⟩ (F.fin 1) zero3 zero3
      none) = false := by
  have h := C1_theorem defaultEnv defaultCfg
    ⟨⟨F.nan, F.fin 0, F.fin 0, F.fin 0⟩, zero3, zero3⟩ (F.fin 1) zero3 zero3
    none
  exact ⟨h.1 (by decide), h.2⟩

theorem isNan_iff {x : F} : isNan x = true ↔ x = F.nan := by
  cases x <;> simp [isNan]

theorem anyNan4_iff {v : F4} :
    anyNan4 v = true ↔ v.a = F.nan ∨ v.b = F.nan ∨ v.c = F.nan ∨ v.d = F.nan := by
  cases v
  simp [anyNan4, isNan_iff, Bool.or_eq_true, or_assoc]

theorem anyNan3_iff {v : F3} :
    anyNan3 v = true ↔ v.x = F.nan ∨ v.y = F.nan ∨ v.z = F.nan := by
  cases v
  simp [anyNan3, isNan_iff, Bool.or_eq_true, or_assoc]

theorem fadd_nan_left (x : F) : fadd F.nan x = F.nan := by cases x <;> rfl

theorem fadd_nan_right (x : F) : fadd x F.nan = F.nan := by cases x <;> rfl

theorem fneg_nan : fneg F.nan = F.nan := rfl

theorem fsub_nan_left (x : F) : fsub F.nan x = F.nan := by cases x <;> rfl

theorem fsub_nan_right (x : F) : fsub x F.nan = F.nan := by cases x <;> rfl

theorem fmul_nan_left (x : F) : fmul F.nan x = F.nan := by cases x <;> rfl

theorem fmul_nan_right (x : F) : fmul x F.nan = F.nan := by cases x <;> rfl

theorem fdiv_nan_left (x : F) : fdiv F.nan x = F.nan := by cases x <;> rfl

theorem fdiv_nan_right (x : F) : fdiv x F.nan = F.nan := by cases x <;> rfl

theorem fltb_nan_left (y : F) : fltb F.nan y = false := by cases y <;> rfl

theorem fltb_nan_right (x : F) : fltb x F.nan = false := by cases x <;> rfl

theorem MAXF_pos : 0 < MAXF := by norm_num [MAXF]

theorem MAXF_big : (10 ^ 20 : ℚ) ≤ MAXF := by
  rw [MAXF]
  have h : (10 ^ 20 : ℕ) ≤ 2 ^ 1024 := by norm_num
  exact_mod_cast Nat.cast_le.mpr h

theorem mkF_eq_fin {q : ℚ} (h : |q| < MAXF) : mkF q = F.fin q := by
  rw [abs_lt] at h
  have h1 : ¬ (MAXF ≤ q) := by linarith [h.2]
  have h2 : ¬ (q ≤ qneg MAXF) := by rw [qneg_eq]; linarith [h.1]
  simp [mkF, h1, h2]

theorem mkF_fin_inv {q c : ℚ} (h : mkF q = F.fin c) : c = q := by
  unfold mkF at h
  split_ifs at h
  injection h with h'
  exact h'.symm

theorem mkF_nonneg {q : ℚ} (hq : 0 ≤ q) : mkF q = F.pinf ∨ mkF q = F.fin q := by
  unfold mkF
  split_ifs with h1 h2
  · exact Or.inl rfl
  · exfalso
    rw [qneg_eq] at h2
    have := MAXF_pos
    linarith
  · exact Or.inr rfl

theorem fadd_fin_fin (a b : ℚ) : fadd (F.fin a) (F.fin b) = mkF (a + b) := by
  show mkF (qadd a b) = mkF (a + b)
  rw [qadd_eq]

theorem fsub_fin_fin (a b : ℚ) : fsub (F.fin a) (F.fin b) = mkF (a - b) := by
  show fadd (F.fin a) (F.fin (qneg b)) = mkF (a - b)
  rw [qneg_eq]
  rw [fadd_fin_fin, sub_eq_add_neg]

theorem fmul_fin_fin (a b : ℚ) : fmul (F.fin a) (F.fin b) = mkF (a * b) := by
  show mkF (qmul a b) = mkF (a * b)
  rw [qmul_eq]

theorem fdiv_fin_fin {b : ℚ} (a : ℚ) (hb : b ≠ 0) :
    fdiv (F.fin a) (F.fin b) = mkF (a / b) := by
  show (if b = 0 then _ else mkF (qdiv a b)) = mkF (a / b)
  rw [if_neg hb, qdiv_eq]

theorem fadd_fin_small {a b : ℚ} (h : |a + b| < MAXF) :
    fadd (F.fin a) (F.fin b) = F.fin (a + b) := by
  rw [fadd_fin_fin, mkF_eq_fin h]

theorem fsub_fin_small {a b : ℚ} (h : |a - b| < MAXF) :
    fsub (F.fin a) (F.fin b) = F.fin (a - b) := by
  rw [fsub_fin_fin, mkF_eq_fin h]

theorem fmul_fin_small {a b : ℚ} (h : |a * b| < MAXF) :
    fmul (F.fin a) (F.fin b) = F.fin (a * b) := by
  rw [fmul_fin_fin, mkF_eq_fin h]

theorem fdiv_fin_small {a b : ℚ} (hb : b ≠ 0) (h : |a / b| < MAXF) :
    fdiv (F.fin a) (F.fin b) = F.fin (a / b) := by
  rw [fdiv_fin_fin a hb, mkF_eq_fin h]

theorem fadd_eq_fin {x y : F} {c : ℚ} (h : fadd x y = F.fin c) :
    ∃ a b : ℚ, x = F.fin a ∧ y = F.fin b ∧ c = a + b := by
  cases x <;> cases y <;> simp only [fadd] at h <;> try exact absurd h (by simp)
  case fin.fin a b =>
    have h' := mkF_fin_inv h
    rw [qadd_eq] at h'
    exact ⟨a, b, rfl, rfl, h'⟩

theorem fmul_self_eq_fin {x : F} {c : ℚ} (h : fmul x x = F.fin c) :
    ∃ a : ℚ, x = F.fin a ∧ c = a * a := by
  cases x <;> simp only [fmul] at h <;> try exact absurd h (by simp)
  case fin a =>
    have h' := mkF_fin_inv h
    rw [qmul_eq] at h'
    exact ⟨a, rfl, h'⟩

theorem normSq4_eq_fin {v : F4} {S : ℚ} (h : normSq4 v = F.fin S) :
    ∃ a b c d : ℚ, v = ⟨F.fin a, F.fin b, F.fin c, F.fin d⟩ ∧
      S = a * a + b * b + c * c + d * d := by
  obtain ⟨u3, sd, h3, hd, hS⟩ := fadd_eq_fin h
  obtain ⟨u2, sc, h2, hc, hu3⟩ := fadd_eq_fin h3
  obtain ⟨sa, sb, ha, hb, hu2⟩ := fadd_eq_fin h2
  obtain ⟨a, hva, hsa⟩ := fmul_self_eq_fin ha
  obtain ⟨b, hvb, hsb⟩ := fmul_self_eq_fin hb
  obtain ⟨c, hvc, hsc⟩ := fmul_self_eq_fin hc
  obtain ⟨d, hvd, hsd⟩ := fmul_self_eq_fin hd
  refine ⟨a, b, c, d, ?_, by rw [hS, hu3, hu2, hsa, hsb, hsc, hsd]⟩
  cases v
  simp only [F4.mk.injEq]
  exact ⟨hva, hvb, hvc, hvd⟩

theorem normSq3_eq_fin {v : F3} {S : ℚ} (h : normSq3 v = F.fin S) :
    ∃ a b c : ℚ, v = ⟨F.fin a, F.fin b, F.fin c⟩ ∧ S = a * a + b * b + c * c := by
  obtain ⟨u2, sc, h2, hc, hS⟩ := fadd_eq_fin h
  obtain ⟨sa, sb, ha, hb, hu2⟩ := fadd_eq_fin h2
  obtain ⟨a, hva, hsa⟩ := fmul_self_eq_fin ha
  obtain ⟨b, hvb, hsb⟩ := fmul_self_eq_fin hb
  obtain ⟨c, hvc, hsc⟩ := fmul_self_eq_fin hc
  refine ⟨a, b, c, ?_, by rw [hS, hu2, hsa, hsb, hsc]⟩
  cases v
  simp only [F3.mk.injEq]
  exact ⟨hva, hvb, hvc⟩

theorem normSq4_eval {B a b c d : ℚ} (hB : 0 ≤ B) (hBM : 4 * (B * B) < MAXF)
    (ha : |a| ≤ B) (hb : |b| ≤ B) (hc : |c| ≤ B) (hd : |d| ≤ B) :
    normSq4 ⟨F.fin a, F.fin b, F.fin c, F.fin d⟩ =
      F.fin (a * a + b * b + c * c + d * d) := by
  have h0B : (0 : ℚ) ≤ B * B := mul_self_nonneg B
  have haa : |a * a| ≤ B * B := by
    rw [abs_mul]; exact mul_le_mul ha ha (abs_nonneg _) hB
  have hbb : |b * b| ≤ B * B := by
    rw [abs_mul]; exact mul_le_mul hb hb (abs_nonneg _) hB
  have hcc : |c * c| ≤ B * B := by
    rw [abs_mul]; exact mul_le_mul hc hc (abs_nonneg _) hB
  have hdd : |d * d| ≤ B * B := by
    rw [abs_mul]; exact mul_le_mul hd hd (abs_nonneg _) hB
  have p1 : fmul (F.fin a) (F.fin a) = F.fin (a * a) := fmul_fin_small (by nlinarith)
  have p2 : fmul (F.fin b) (F.fin b) = F.fin (b * b) := fmul_fin_small (by nlinarith)
  have p3 : fmul (F.fin c) (F.fin c) = F.fin (c * c) := fmul_fin_small (by nlinarith)
  have p4 : fmul (F.fin d) (F.fin d) = F.fin (d * d) := fmul_fin_small (by nlinarith)
  have s1 : fadd (F.fin (a * a)) (F.fin (b * b)) = F.fin (a * a + b * b) :=
    fadd_fin_small (lt_of_le_of_lt (abs_add _ _) (by nlinarith))
  have s2 : fadd (F.fin (a * a + b * b)) (F.fin (c * c)) =
      F.fin (a * a + b * b + c * c) :=
    fadd_fin_small (lt_of_le_of_lt (abs_add _ _)
      (by nlinarith [abs_add (a * a) (b * b)]))
  have s3 : fadd (F.fin (a * a + b * b + c * c)) (F.fin (d * d)) =
      F.fin (a * a + b * b + c * c + d * d) :=
    fadd_fin_small (lt_of_le_of_lt (abs_add _ _)
      (by nlinarith [abs_add (a * a) (b * b), abs_add (a * a + b * b) (c * c)]))
  show fadd (fadd (fadd (fmul (F.fin a) (F.fin a)) (fmul (F.fin b) (F.fin b)))
      (fmul (F.fin c) (F.fin c))) (fmul (F.fin d) (F.fin d)) = _
  rw [p1, p2, p3, p4, s1, s2, s3]

theorem normSq3_eval {B a b c : ℚ} (hB : 0 ≤ B) (hBM : 4 * (B * B) < MAXF)
    (ha : |a| ≤ B) (hb : |b| ≤ B) (hc : |c| ≤ B) :
    normSq3 ⟨F.fin a, F.fin b, F.fin c⟩ = F.fin (a * a + b * b + c * c) := by
  have h0B : (0 : ℚ) ≤ B * B := mul_self_nonneg B
  have haa : |a * a| ≤ B * B := by
    rw [abs_mul]; exact mul_le_mul ha ha (abs_nonneg _) hB
  have hbb : |b * b| ≤ B * B := by
    rw [abs_mul]; exact mul_le_mul hb hb (abs_nonneg _) hB
  have hcc : |c * c| ≤ B * B := by
    rw [abs_mul]; exact mul_le_mul hc hc (abs_nonneg _) hB
  have p1 : fmul (F.fin a) (F.fin a) = F.fin (a * a) := fmul_fin_small (by nlinarith)
  have p2 : fmul (F.fin b) (F.fin b) = F.fin (b * b) := fmul_fin_small (by nlinarith)
  have p3 : fmul (F.fin c) (F.fin c) = F.fin (c * c) := fmul_fin_small (by nlinarith)
  have s1 : fadd (F.fin (a * a)) (F.fin (b * b)) = F.fin (a * a + b * b) :=
    fadd_fin_small (lt_of_le_of_lt (abs_add _ _) (by nlinarith))
  have s2 : fadd (F.fin (a * a + b * b)) (F.fin (c * c)) =
      F.fin (a * a + b * b + c * c) :=
    fadd_fin_small (lt_of_le_of_lt (abs_add _ _)
      (by nlinarith [abs_add (a * a) (b * b)]))
  show fadd (fadd (fmul (F.fin a) (F.fin a)) (fmul (F.fin b) (F.fin b)))
      (fmul (F.fin c) (F.fin c)) = _
  rw [p1, p2, p3, s1, s2]

theorem normSq4_of_nan {v : F4} (h : anyNan4 v = true) : normSq4 v = F.nan := by
  rcases anyNan4_iff.mp h with hc | hc | hc | hc <;>
    simp [normSq4, hc, fmul_nan_left, fmul_nan_right, fadd_nan_left, fadd_nan_right]

theorem normSq3_of_nan {v : F3} (h : anyNan3 v = true) : normSq3 v = F.nan := by
  rcases anyNan3_iff.mp h with hc | hc | hc <;>
    simp [normSq3, hc, fmul_nan_left, fmul_nan_right, fadd_nan_left, fadd_nan_right]

theorem v4sdiv_nan (v : F4) : v4sdiv v F.nan = ⟨F.nan, F.nan, F.nan, F.nan⟩ := by
  simp [v4sdiv, fdiv_nan_right]

/-- Normalizing a quaternion that contains NaN yields all NaN. -/
theorem normalize_of_nan {env : NumEnv} {q : F4} (h : anyNan4 q = true) :
    normalize_quaternion env q = ⟨F.nan, F.nan, F.nan, F.nan⟩ := by
  unfold normalize_quaternion norm4
  rw [normSq4_of_nan h]
  show (if fltb F.nan (F.fin (mkRat 1 (10 ^ 10))) = true then id4 else v4sdiv q F.nan) = _
  rw [fltb_nan_left]
  simp [v4sdiv_nan]

theorem fltb_fin_fin {a b : ℚ} : fltb (F.fin a) (F.fin b) = true ↔ a < b := by
  simp [fltb]

theorem abs_le_of_sq_le {a r : ℚ} (h0 : 0 ≤ r) (h : a * a ≤ r * r) : |a| ≤ r := by
  nlinarith [abs_mul_abs_self a, abs_nonneg a]

theorem NNF_fmul_self (x : F) : NNF (fmul x x) := by
  cases x with
  | fin a =>
    rw [show fmul (F.fin a) (F.fin a) = mkF (a * a) from fmul_fin_fin a a]
    rcases mkF_nonneg (mul_self_nonneg a) with h | h
    · exact Or.inr (Or.inl h)
    · exact Or.inr (Or.inr ⟨a * a, mul_self_nonneg a, h⟩)
  | pinf => exact Or.inr (Or.inl rfl)
  | ninf => exact Or.inr (Or.inl rfl)
  | nan => exact Or.inl rfl

theorem NNF_fadd {x y : F} (hx : NNF x) (hy : NNF y) : NNF (fadd x y) := by
  rcases hx with rfl | rfl | ⟨a, ha, rfl⟩ <;>
    rcases hy with rfl | rfl | ⟨b, hb, rfl⟩
  · exact Or.inl rfl
  · exact Or.inl rfl
  · exact Or.inl rfl
  · exact Or.inl rfl
  · exact Or.inr (Or.inl rfl)
  · exact Or.inr (Or.inl rfl)
  · exact Or.inl (fadd_nan_right _)
  · exact Or.inr (Or.inl rfl)
  · rw [fadd_fin_fin]
    rcases mkF_nonneg (by linarith : (0 : ℚ) ≤ a + b) with h | h
    · exact Or.inr (Or.inl h)
    · exact Or.inr (Or.inr ⟨a + b, by linarith, h⟩)

theorem NNF_normSq4 (v : F4) : NNF (normSq4 v) :=
  NNF_fadd (NNF_fadd (NNF_fadd (NNF_fmul_self v.a) (NNF_fmul_self v.b))
    (NNF_fmul_self v.c)) (NNF_fmul_self v.d)

theorem NNF_normSq3 (v : F3) : NNF (normSq3 v) :=
  NNF_fadd (NNF_fadd (NNF_fmul_self v.x) (NNF_fmul_self v.y)) (NNF_fmul_self v.z)

theorem fdiv_fin_pinf (a : ℚ) : fdiv (F.fin a) F.pinf = F.fin 0 := rfl

theorem fdiv_pinf_of_ne_nan {x : F} (h : fdiv x F.pinf ≠ F.nan) :
    fdiv x F.pinf = F.fin 0 := by
  cases x <;> simp [fdiv] at h ⊢

theorem eps10_eq : (mkRat 1 (10 ^ 10) : ℚ) = 1 / 10 ^ 10 := by
  rw [Rat.mkRat_eq_divInt, Rat.divInt_eq_div]
  norm_num

theorem eps12_eq : (mkRat 1 (10 ^ 12) : ℚ) = 1 / 10 ^ 12 := by
  rw [Rat.mkRat_eq_divInt, Rat.divInt_eq_div]
  norm_num

/-- Lemma for claim C2: a normalized quaternion either contains NaN or has all
components finite with magnitude at most 1, provided the machine square root
is exact at the consulted value. -/
theorem normalize_bounds (env : NumEnv) (q4 : F4)
    (hS : SqrtExactAt env (normSq4 q4)) :
    anyNan4 (normalize_quaternion env q4) = true ∨
    ∃ a b c d : ℚ,
      normalize_quaternion env q4 = ⟨F.fin a, F.fin b, F.fin c, F.fin d⟩ ∧
      |a| ≤ 1 ∧ |b| ≤ 1 ∧ |c| ≤ 1 ∧ |d| ≤ 1 := by
  rcases NNF_normSq4 q4 with hn | hp | ⟨S, hS0, hfin⟩
  · left
    unfold normalize_quaternion norm4
    rw [hn]
    show anyNan4 (if fltb F.nan _ = true then id4 else v4sdiv q4 F.nan) = true
    rw [fltb_nan_left]
    simp [v4sdiv_nan, anyNan4, isNan]
  · unfold normalize_quaternion norm4
    rw [hp]
    show (anyNan4 (if fltb F.pinf _ = true then id4 else v4sdiv q4 F.pinf) = true) ∨ _
    have hlt : fltb F.pinf (F.fin (mkRat 1 (10 ^ 10))) = false := rfl
    rw [hlt]
    simp only [Bool.false_eq_true, if_false]
    by_cases hnan : anyNan4 (v4sdiv q4 F.pinf) = true
    · exact Or.inl hnan
    · right
      rw [anyNan4_iff] at hnan
      push_neg at hnan
      obtain ⟨h1, h2, h3, h4⟩ := hnan
      refine ⟨0, 0, 0, 0, ?_, by norm_num, by norm_num, by norm_num, by norm_num⟩
      show F4.mk (fdiv q4.a F.pinf) (fdiv q4.b F.pinf) (fdiv q4.c F.pinf)
        (fdiv q4.d F.pinf) = _
      rw [fdiv_pinf_of_ne_nan h1, fdiv_pinf_of_ne_nan h2, fdiv_pinf_of_ne_nan h3,
        fdiv_pinf_of_ne_nan h4]
  · rw [hfin] at hS
    obtain ⟨hr0, hrr⟩ := hS
    set r := env.sqrtQ S with hr
    obtain ⟨a, b, c, d, hv, hSsum⟩ := normSq4_eq_fin hfin
    unfold normalize_quaternion norm4
    rw [hfin]
    have hfs : fsqrt env (F.fin S) = F.fin r := by
      simp [fsqrt, not_lt.mpr hS0]
    rw [hfs]
    by_cases hb : fltb (F.fin r) (F.fin (mkRat 1 (10 ^ 10))) = true
    · rw [if_pos hb]
      exact Or.inr ⟨1, 0, 0, 0, rfl, by norm_num, by norm_num, by norm_num,
        by norm_num⟩
    · rw [if_neg hb]
      have hre : ¬ (r < mkRat 1 (10 ^ 10)) := fun h => hb (fltb_fin_fin.mpr h)
      push_neg at hre
      have heps : (0 : ℚ) < mkRat 1 (10 ^ 10) := by rw [eps10_eq]; norm_num
      have hrpos : 0 < r := lt_of_lt_of_le heps hre
      have hrne : r ≠ 0 := ne_of_gt hrpos
      have hbound : ∀ x : ℚ, x * x ≤ S → |x / r| ≤ 1 := by
        intro x hx
        have hxr : |x| ≤ r := abs_le_of_sq_le hr0 (by linarith [hrr])
        rw [abs_div, abs_of_pos hrpos]
        exact (div_le_one hrpos).mpr hxr
      have hone : (1 : ℚ) < MAXF := by linarith [MAXF_big]
      have hda : fdiv (F.fin a) (F.fin r) = F.fin (a / r) :=
        fdiv_fin_small hrne (lt_of_le_of_lt (hbound a (by nlinarith)) hone)
      have hdb : fdiv (F.fin b) (F.fin r) = F.fin (b / r) :=
        fdiv_fin_small hrne (lt_of_le_of_lt (hbound b (by nlinarith)) hone)
      have hdc : fdiv (F.fin c) (F.fin r) = F.fin (c / r) :=
        fdiv_fin_small hrne (lt_of_le_of_lt (hbound c (by nlinarith)) hone)
      have hdd : fdiv (F.fin d) (F.fin r) = F.fin (d / r) :=
        fdiv_fin_small hrne (lt_of_le_of_lt (hbound d (by nlinarith)) hone)
      right
      refine ⟨a / r, b / r, c / r, d / r, ?_, hbound a (by nlinarith),
        hbound b (by nlinarith), hbound c (by nlinarith), hbound d (by nlinarith)⟩
      rw [hv]
      show F4.mk (fdiv (F.fin a) (F.fin r)) (fdiv (F.fin b) (F.fin r))
        (fdiv (F.fin c) (F.fin r)) (fdiv (F.fin d) (F.fin r)) = _
      rw [hda, hdb, hdc, hdd]

/-- Lemma for claim C2: normalizing a quaternion with finite components of
magnitude at most 4 yields a quaternion of squared norm exactly 1 when the
machine square root is exact at the consulted value. -/
theorem normalize_unit (env : NumEnv) {a b c d : ℚ}
    (ha : |a| ≤ 4) (hb : |b| ≤ 4) (hc : |c| ≤ 4) (hd : |d| ≤ 4)
    (hS : SqrtExactAt env (normSq4 ⟨F.fin a, F.fin b, F.fin c, F.fin d⟩)) :
    normSq4 (normalize_quaternion env ⟨F.fin a, F.fin b, F.fin c, F.fin d⟩) =
      F.fin 1 := by
  have hM := MAXF_big
  have h64 : (4 : ℚ) * (4 * 4) < MAXF := by linarith
  have hev : normSq4 ⟨F.fin a, F.fin b, F.fin c, F.fin d⟩ =
      F.fin (a * a + b * b + c * c + d * d) :=
    normSq4_eval (by norm_num) h64 ha hb hc hd
  have hone : normSq4 id4 = F.fin 1 := by
    have := normSq4_eval (B := 1) (a := 1) (b := 0) (c := 0) (d := 0)
      (by norm_num) (by linarith) (by norm_num) (by norm_num) (by norm_num)
      (by norm_num)
    rw [show id4 = (⟨F.fin 1, F.fin 0, F.fin 0, F.fin 0⟩ : F4) from rfl, this]
    norm_num
  rw [hev] at hS
  obtain ⟨hr0, hrr⟩ := hS
  have hS0' : (0 : ℚ) ≤ a * a + b * b + c * c + d * d := by
    nlinarith [mul_self_nonneg a, mul_self_nonneg b, mul_self_nonneg c,
      mul_self_nonneg d]
  set S := a * a + b * b + c * c + d * d with hSdef
  set r := env.sqrtQ S with hrdef
  have hS0 : (0 : ℚ) ≤ S := hS0'
  unfold normalize_quaternion norm4
  rw [hev]
  have hfs : fsqrt env (F.fin S) = F.fin r := by
    simp [fsqrt, not_lt.mpr hS0]
  rw [hfs]
  by_cases hbr : fltb (F.fin r) (F.fin (mkRat 1 (10 ^ 10))) = true
  · rw [if_pos hbr]
    exact hone
  · rw [if_neg hbr]
    have hre : ¬ (r < mkRat 1 (10 ^ 10)) := fun h => hbr (fltb_fin_fin.mpr h)
    push_neg at hre
    have heps : (0 : ℚ) < mkRat 1 (10 ^ 10) := by rw [eps10_eq]; norm_num
    have hrpos : 0 < r := lt_of_lt_of_le heps hre
    have hrne : r ≠ 0 := ne_of_gt hrpos
    have hbound : ∀ x : ℚ, x * x ≤ S → |x / r| ≤ 1 := by
      intro x hx
      have hxr : |x| ≤ r := abs_le_of_sq_le hr0 (by linarith [hrr])
      rw [abs_div, abs_of_pos hrpos]
      exact (div_le_one hrpos).mpr hxr
    have hone' : (1 : ℚ) < MAXF := by linarith
    have hba : |a / r| ≤ 1 := hbound a (by nlinarith)
    have hbb : |b / r| ≤ 1 := hbound b (by nlinarith)
    have hbc : |c / r| ≤ 1 := hbound c (by nlinarith)
    have hbd : |d / r| ≤ 1 := hbound d (by nlinarith)
    have hda : fdiv (F.fin a) (F.fin r) = F.fin (a / r) :=
      fdiv_fin_small hrne (lt_of_le_of_lt hba hone')
    have hdb : fdiv (F.fin b) (F.fin r) = F.fin (b / r) :=
      fdiv_fin_small hrne (lt_of_le_of_lt hbb hone')
    have hdc : fdiv (F.fin c) (F.fin r) = F.fin (c / r) :=
      fdiv_fin_small hrne (lt_of_le_of_lt hbc hone')
    have hdd : fdiv (F.fin d) (F.fin r) = F.fin (d / r) :=
      fdiv_fin_small hrne (lt_of_le_of_lt hbd hone')
    show normSq4 (F4.mk (fdiv (F.fin a) (F.fin r)) (fdiv (F.fin b) (F.fin r))
      (fdiv (F.fin c) (F.fin r)) (fdiv (F.fin d) (F.fin r))) = F.fin 1
    rw [hda, hdb, hdc, hdd]
    rw [normSq4_eval (B := 1) (by norm_num) (by linarith) hba hbb hbc hbd]
    have hSpos : 0 < S := by nlinarith
    have hkey : a / r * (a / r) + b / r * (b / r) + c / r * (c / r) +
        d / r * (d / r) = S / (r * r) := by
      rw [hSdef]
      field_simp
    rw [hkey, hrr, div_self (ne_of_gt hSpos)]

theorem quaternion_multiply_nan_left {q1 q2 : F4} (h : q1.a = F.nan) :
    anyNan4 (quaternion_multiply q1 q2) = true := by
  cases q1; cases q2
  simp only at h
  subst h
  simp [quaternion_multiply, anyNan4, isNan, fmul_nan_left, fsub_nan_left,
    fsub_nan_right, fadd_nan_left, fadd_nan_right]

theorem quaternion_multiply_nan_right {q1 q2 : F4} (h : anyNan4 q2 = true) :
    anyNan4 (quaternion_multiply q1 q2) = true := by
  cases q1; cases q2
  rcases anyNan4_iff.mp h with hc | hc | hc | hc <;> simp only at hc <;> subst hc <;>
    simp [quaternion_multiply, anyNan4, isNan, fmul_nan_right, fsub_nan_left,
      fsub_nan_right, fadd_nan_left, fadd_nan_right]

theorem abs_mul_le_one {u v : ℚ} (hu : |u| ≤ 1) (hv : |v| ≤ 1) : |u * v| ≤ 1 := by
  rw [abs_mul]
  nlinarith [abs_nonneg u, abs_nonneg v]

/-- Evaluation of the quaternion product on finite components of magnitude at
most 1: all output components are finite with magnitude at most 4. -/
theorem quaternion_multiply_bounds {a1 b1 c1 d1 a2 b2 c2 d2 : ℚ}
    (ha1 : |a1| ≤ 1) (hb1 : |b1| ≤ 1) (hc1 : |c1| ≤ 1) (hd1 : |d1| ≤ 1)
    (ha2 : |a2| ≤ 1) (hb2 : |b2| ≤ 1) (hc2 : |c2| ≤ 1) (hd2 : |d2| ≤ 1) :
    ∃ a b c d : ℚ,
      quaternion_multiply ⟨F.fin a1, F.fin b1, F.fin c1, F.fin d1⟩
        ⟨F.fin a2, F.fin b2, F.fin c2, F.fin d2⟩ =
        ⟨F.fin a, F.fin b, F.fin c, F.fin d⟩ ∧
      |a| ≤ 4 ∧ |b| ≤ 4 ∧ |c| ≤ 4 ∧ |d| ≤ 4 := by
  have hM := MAXF_big
  have hmul : ∀ u v : ℚ, |u| ≤ 1 → |v| ≤ 1 →
      fmul (F.fin u) (F.fin v) = F.fin (u * v) := by
    intro u v hu hv
    exact fmul_fin_small (lt_of_le_of_lt (abs_mul_le_one hu hv) (by linarith))
  have hstep2 : ∀ u v : ℚ, |u| ≤ 1 → |v| ≤ 1 → |u - v| ≤ 2 ∧ |u + v| ≤ 2 := by
    intro u v hu hv
    obtain ⟨l1, r1⟩ := abs_le.mp hu
    obtain ⟨l2, r2⟩ := abs_le.mp hv
    exact ⟨abs_le.mpr ⟨by linarith, by linarith⟩, abs_le.mpr ⟨by linarith, by linarith⟩⟩
  refine ⟨a1 * a2 - b1 * b2 - c1 * c2 - d1 * d2,
    a1 * b2 + b1 * a2 + c1 * d2 - d1 * c2,
    a1 * c2 - b1 * d2 + c1 * a2 + d1 * b2,
    a1 * d2 + b1 * c2 - c1 * b2 + d1 * a2, ?_, ?_, ?_, ?_, ?_⟩
  · show F4.mk
      (fsub (fsub (fsub (fmul (F.fin a1) (F.fin a2)) (fmul (F.fin b1) (F.fin b2)))
        (fmul (F.fin c1) (F.fin c2))) (fmul (F.fin d1) (F.fin d2)))
      (fsub (fadd (fadd (fmul (F.fin a1) (F.fin b2)) (fmul (F.fin b1) (F.fin a2)))
        (fmul (F.fin c1) (F.fin d2))) (fmul (F.fin d1) (F.fin c2)))
      (fadd (fadd (fsub (fmul (F.fin a1) (F.fin c2)) (fmul (F.fin b1) (F.fin d2)))
        (fmul (F.fin c1) (F.fin a2))) (fmul (F.fin d1) (F.fin b2)))
      (fadd (fsub (fadd (fmul (F.fin a1) (F.fin d2)) (fmul (F.fin b1) (F.fin c2)))
        (fmul (F.fin c1) (F.fin b2))) (fmul (F.fin d1) (F.fin a2))) = _
    rw [hmul a1 a2 ha1 ha2, hmul b1 b2 hb1 hb2, hmul c1 c2 hc1 hc2,
      hmul d1 d2 hd1 hd2, hmul a1 b2 ha1 hb2, hmul b1 a2 hb1 ha2,
      hmul c1 d2 hc1 hd2, hmul d1 c2 hd1 hc2, hmul a1 c2 ha1 hc2,
      hmul b1 d2 hb1 hd2, hmul c1 a2 hc1 ha2, hmul d1 b2 hd1 hb2,
      hmul a1 d2 ha1 hd2, hmul b1 c2 hb1 hc2, hmul c1 b2 hc1 hb2,
      hmul d1 a2 hd1 ha2]
    have p1 := abs_mul_le_one ha1 ha2
    have p2 := abs_mul_le_one hb1 hb2
    have p3 := abs_mul_le_one hc1 hc2
    have p4 := abs_mul_le_one hd1 hd2
    have p5 := abs_mul_le_one ha1 hb2
    have p6 := abs_mul_le_one hb1 ha2
    have p7 := abs_mul_le_one hc1 hd2
    have p8 := abs_mul_le_one hd1 hc2
    have p9 := abs_mul_le_one ha1 hc2
    have p10 := abs_mul_le_one hb1 hd2
    have p11 := abs_mul_le_one hc1 ha2
    have p12 := abs_mul_le_one hd1 hb2
    have p13 := abs_mul_le_one ha1 hd2
    have p14 := abs_mul_le_one hb1 hc2
    have p15 := abs_mul_le_one hc1 hb2
    have p16 := abs_mul_le_one hd1 ha2
    have habs2 : ∀ u v : ℚ, |u| ≤ 1 → |v| ≤ 1 → |u - v| ≤ 2 := by
      intro u v hu hv
      exact (hstep2 u v hu hv).1
    rw [fsub_fin_small (by
        obtain ⟨l1, r1⟩ := abs_le.mp p1
        obtain ⟨l2, r2⟩ := abs_le.mp p2
        exact lt_of_le_of_lt (abs_le.mpr ⟨by linarith, by linarith⟩ :
          |a1 * a2 - b1 * b2| ≤ 2) (by linarith)),
      fsub_fin_small (by
        obtain ⟨l1, r1⟩ := abs_le.mp p1
        obtain ⟨l2, r2⟩ := abs_le.mp p2
        obtain ⟨l3, r3⟩ := abs_le.mp p3
        exact lt_of_le_of_lt (abs_le.mpr ⟨by linarith, by linarith⟩ :
          |a1 * a2 - b1 * b2 - c1 * c2| ≤ 3) (by linarith)),
      fsub_fin_small (by
        obtain ⟨l1, r1⟩ := abs_le.mp p1
        obtain ⟨l2, r2⟩ := abs_le.mp p2
        obtain ⟨l3, r3⟩ := abs_le.mp p3
        obtain ⟨l4, r4⟩ := abs_le.mp p4
        exact lt_of_le_of_lt (abs_le.mpr ⟨by linarith, by linarith⟩ :
          |a1 * a2 - b1 * b2 - c1 * c2 - d1 * d2| ≤ 4) (by linarith)),
      fadd_fin_small (by
        obtain ⟨l1, r1⟩ := abs_le.mp p5
        obtain ⟨l2, r2⟩ := abs_le.mp p6
        exact lt_of_le_of_lt (abs_le.mpr ⟨by linarith, by linarith⟩ :
          |a1 * b2 + b1 * a2| ≤ 2) (by linarith)),
      fadd_fin_small (by
        obtain ⟨l1, r1⟩ := abs_le.mp p5
        obtain ⟨l2, r2⟩ := abs_le.mp p6
        obtain ⟨l3, r3⟩ := abs_le.mp p7
        exact lt_of_le_of_lt (abs_le.mpr ⟨by linarith, by linarith⟩ :
          |a1 * b2 + b1 * a2 + c1 * d2| ≤ 3) (by linarith)),
      fsub_fin_small (by
        obtain ⟨l1, r1⟩ := abs_le.mp p5
        obtain ⟨l2, r2⟩ := abs_le.mp p6
        obtain ⟨l3, r3⟩ := abs_le.mp p7
        obtain ⟨l4, r4⟩ := abs_le.mp p8
        exact lt_of_le_of_lt (abs_le.mpr ⟨by linarith, by linarith⟩ :
          |a1 * b2 + b1 * a2 + c1 * d2 - d1 * c2| ≤ 4) (by linarith)),
      fsub_fin_small (by
        obtain ⟨l1, r1⟩ := abs_le.mp p9
        obtain ⟨l2, r2⟩ := abs_le.mp p10
        exact lt_of_le_of_lt (abs_le.mpr ⟨by linarith, by linarith⟩ :
          |a1 * c2 - b1 * d2| ≤ 2) (by linarith)),
      fadd_fin_small (by
        obtain ⟨l1, r1⟩ := abs_le.mp p9
        obtain ⟨l2, r2⟩ := abs_le.mp p10
        obtain ⟨l3, r3⟩ := abs_le.mp p11
        exact lt_of_le_of_lt (abs_le.mpr ⟨by linarith, by linarith⟩ :
          |a1 * c2 - b1 * d2 + c1 * a2| ≤ 3) (by linarith)),
      fadd_fin_small (by
        obtain ⟨l1, r1⟩ := abs_le.mp p9
        obtain ⟨l2, r2⟩ := abs_le.mp p10
        obtain ⟨l3, r3⟩ := abs_le.mp p11
        obtain ⟨l4, r4⟩ := abs_le.mp p12
        exact lt_of_le_of_lt (abs_le.mpr ⟨by linarith, by linarith⟩ :
          |a1 * c2 - b1 * d2 + c1 * a2 + d1 * b2| ≤ 4) (by linarith)),
      fadd_fin_small (by
        obtain ⟨l1, r1⟩ := abs_le.mp p13
        obtain ⟨l2, r2⟩ := abs_le.mp p14
        exact lt_of_le_of_lt (abs_le.mpr ⟨by linarith, by linarith⟩ :
          |a1 * d2 + b1 * c2| ≤ 2) (by linarith)),
      fsub_fin_small (by
        obtain ⟨l1, r1⟩ := abs_le.mp p13
        obtain ⟨l2, r2⟩ := abs_le.mp p14
        obtain ⟨l3, r3⟩ := abs_le.mp p15
        exact lt_of_le_of_lt (abs_le.mpr ⟨by linarith, by linarith⟩ :
          |a1 * d2 + b1 * c2 - c1 * b2| ≤ 3) (by linarith)),
      fadd_fin_small (by
        obtain ⟨l1, r1⟩ := abs_le.mp p13
        obtain ⟨l2, r2⟩ := abs_le.mp p14
        obtain ⟨l3, r3⟩ := abs_le.mp p15
        obtain ⟨l4, r4⟩ := abs_le.mp p16
        exact lt_of_le_of_lt (abs_le.mpr ⟨by linarith, by linarith⟩ :
          |a1 * d2 + b1 * c2 - c1 * b2 + d1 * a2| ≤ 4) (by linarith))]
  · obtain ⟨l1, r1⟩ := abs_le.mp (abs_mul_le_one ha1 ha2)
    obtain ⟨l2, r2⟩ := abs_le.mp (abs_mul_le_one hb1 hb2)
    obtain ⟨l3, r3⟩ := abs_le.mp (abs_mul_le_one hc1 hc2)
    obtain ⟨l4, r4⟩ := abs_le.mp (abs_mul_le_one hd1 hd2)
    exact abs_le.mpr ⟨by linarith, by linarith⟩
  · obtain ⟨l1, r1⟩ := abs_le.mp (abs_mul_le_one ha1 hb2)
    obtain ⟨l2, r2⟩ := abs_le.mp (abs_mul_le_one hb1 ha2)
    obtain ⟨l3, r3⟩ := abs_le.mp (abs_mul_le_one hc1 hd2)
    obtain ⟨l4, r4⟩ := abs_le.mp (abs_mul_le_one hd1 hc2)
    exact abs_le.mpr ⟨by linarith, by linarith⟩
  · obtain ⟨l1, r1⟩ := abs_le.mp (abs_mul_le_one ha1 hc2)
    obtain ⟨l2, r2⟩ := abs_le.mp (abs_mul_le_one hb1 hd2)
    obtain ⟨l3, r3⟩ := abs_le.mp (abs_mul_le_one hc1 ha2)
    obtain ⟨l4, r4⟩ := abs_le.mp (abs_mul_le_one hd1 hb2)
    exact abs_le.mpr ⟨by linarith, by linarith⟩
  · obtain ⟨l1, r1⟩ := abs_le.mp (abs_mul_le_one ha1 hd2)
    obtain ⟨l2, r2⟩ := abs_le.mp (abs_mul_le_one hb1 hc2)
    obtain ⟨l3, r3⟩ := abs_le.mp (abs_mul_le_one hc1 hb2)
    obtain ⟨l4, r4⟩ := abs_le.mp (abs_mul_le_one hd1 ha2)
    exact abs_le.mpr ⟨by linarith, by linarith⟩

theorem mkF_cases (q : ℚ) :
    (mkF q = F.fin q ∧ |q| < MAXF) ∨ mkF q = F.pinf ∨ mkF q = F.ninf := by
  unfold mkF
  split_ifs with h1 h2
  · exact Or.inr (Or.inl rfl)
  · exact Or.inr (Or.inr rfl)
  · rw [qneg_eq] at h2
    exact Or.inl ⟨rfl, abs_lt.mpr ⟨by linarith, by linarith⟩⟩

theorem fmul_pinf_cases (y : F) :
    fmul F.pinf y = F.pinf ∨ fmul F.pinf y = F.ninf ∨ fmul F.pinf y = F.nan := by
  cases y with
  | fin b =>
    by_cases h1 : b = 0
    · exact Or.inr (Or.inr (by simp [fmul, h1]))
    · by_cases h2 : 0 < b
      · exact Or.inl (by simp [fmul, h1, h2])
      · exact Or.inr (Or.inl (by simp [fmul, h1, h2]))
  | pinf => exact Or.inl rfl
  | ninf => exact Or.inr (Or.inl rfl)
  | nan => exact Or.inr (Or.inr rfl)

theorem half_eq : (mkRat 1 2 : ℚ) = 1 / 2 := by
  rw [Rat.mkRat_eq_divInt, Rat.divInt_eq_div]
  norm_num

theorem half_pos : (0 : ℚ) < mkRat 1 2 := by rw [half_eq]; norm_num

theorem fmul_fin_pinf_pos {a : ℚ} (h : 0 < a) : fmul (F.fin a) F.pinf = F.pinf := by
  show (if a = 0 then F.nan else if 0 < a then F.pinf else F.ninf) = F.pinf
  rw [if_neg (ne_of_gt h), if_pos h]

theorem fmul_fin_ninf_pos {a : ℚ} (h : 0 < a) : fmul (F.fin a) F.ninf = F.ninf := by
  show (if a = 0 then F.nan else if 0 < a then F.ninf else F.pinf) = F.ninf
  rw [if_neg (ne_of_gt h), if_pos h]

theorem fcos_pinf (env : NumEnv) : fcos env F.pinf = F.nan := rfl

theorem fcos_ninf (env : NumEnv) : fcos env F.ninf = F.nan := rfl

theorem fcos_nan (env : NumEnv) : fcos env F.nan = F.nan := rfl

/-- Lemma for claim C2: before the final renormalization, the updated
quaternion either contains NaN or has finite components of magnitude at
most 4, given the machine trigonometric range bounds and exactness of the
machine square root at the two consulted values. -/
theorem att_pre_q_cases (env : NumEnv) (cfg : EngineCfg) (s : AttitudeState)
    (dt : F) (ct et : F3) (pos : Option F3)
    (hcos : ∀ x, |env.cosQ x| ≤ 1) (hsin : ∀ x, |env.sinQ x| ≤ 1)
    (h0 : SqrtExactAt env (normSq4 s.quaternion))
    (hw : SqrtExactAt env (normSq3 (att_new_w env cfg s dt ct et pos))) :
    anyNan4 (att_pre_q env cfg s dt ct et pos) = true ∨
    ∃ a b c d : ℚ, att_pre_q env cfg s dt ct et pos =
        ⟨F.fin a, F.fin b, F.fin c, F.fin d⟩ ∧
      |a| ≤ 4 ∧ |b| ≤ 4 ∧ |c| ≤ 4 ∧ |d| ≤ 4 := by
  have hq := normalize_bounds env s.quaternion h0
  have hqdef : att_q env s = normalize_quaternion env s.quaternion := rfl
  rw [← hqdef] at hq
  simp only [att_pre_q]
  by_cases hbr : fltb (norm3 env (att_new_w env cfg s dt ct et pos))
      (F.fin (mkRat 1 (10 ^ 12))) = true
  · rw [if_pos hbr]
    rcases hq with h | ⟨a, b, c, d, hv, ha, hb, hc, hd⟩
    · exact Or.inl h
    · exact Or.inr ⟨a, b, c, d, hv, by linarith, by linarith, by linarith,
        by linarith⟩
  · rw [if_neg hbr]
    rcases hq with hqnan | ⟨qa, qb, qc, qd, hqv, hqa, hqb, hqc, hqd⟩
    · exact Or.inl (quaternion_multiply_nan_right hqnan)
    · set nw := att_new_w env cfg s dt ct et pos with hnwdef
      rcases NNF_normSq3 nw with hn | hp | ⟨W, hW0, hWf⟩
      · left
        apply quaternion_multiply_nan_left
        show fcos env (fmul (F.fin (mkRat 1 2)) (fmul (norm3 env nw) dt)) = F.nan
        rw [norm3, hn]
        show fcos env (fmul (F.fin (mkRat 1 2)) (fmul F.nan dt)) = F.nan
        rw [fmul_nan_left, fmul_nan_right, fcos_nan]
      · left
        apply quaternion_multiply_nan_left
        show fcos env (fmul (F.fin (mkRat 1 2)) (fmul (norm3 env nw) dt)) = F.nan
        rw [norm3, hp]
        show fcos env (fmul (F.fin (mkRat 1 2)) (fmul F.pinf dt)) = F.nan
        rcases fmul_pinf_cases dt with h | h | h <;> rw [h]
        · rw [fmul_fin_pinf_pos half_pos, fcos_pinf]
        · rw [fmul_fin_ninf_pos half_pos, fcos_ninf]
        · rw [fmul_nan_right, fcos_nan]
      · rw [hWf] at hw
        obtain ⟨hrho0, hrho⟩ := hw
        set rhoW := env.sqrtQ W with hrhodef
        obtain ⟨x, y, z, hnwv, hWsum⟩ := normSq3_eq_fin hWf
        have hwmag : norm3 env nw = F.fin rhoW := by
          rw [norm3, hWf]
          simp [fsqrt, not_lt.mpr hW0]
        rw [hwmag] at hbr
        have hre : ¬ (rhoW < mkRat 1 (10 ^ 12)) := fun h => hbr (fltb_fin_fin.mpr h)
        push_neg at hre
        have heps : (0 : ℚ) < mkRat 1 (10 ^ 12) := by rw [eps12_eq]; norm_num
        have hrpos : 0 < rhoW := lt_of_lt_of_le heps hre
        have hrne : rhoW ≠ 0 := ne_of_gt hrpos
        have hM := MAXF_big
        have hone : (1 : ℚ) < MAXF := by linarith
        have hbnd : ∀ u : ℚ, u * u ≤ W → |u / rhoW| ≤ 1 := by
          intro u hu
          have : |u| ≤ rhoW := abs_le_of_sq_le hrho0 (by linarith [hrho])
          rw [abs_div, abs_of_pos hrpos]
          exact (div_le_one hrpos).mpr this
        have hsx : x * x ≤ W := by nlinarith [mul_self_nonneg y, mul_self_nonneg z]
        have hsy : y * y ≤ W := by nlinarith [mul_self_nonneg x, mul_self_nonneg z]
        have hsz : z * z ≤ W := by nlinarith [mul_self_nonneg x, mul_self_nonneg y]
        have hax : fdiv (F.fin x) (F.fin rhoW) = F.fin (x / rhoW) :=
          fdiv_fin_small hrne (lt_of_le_of_lt (hbnd x hsx) hone)
        have hay : fdiv (F.fin y) (F.fin rhoW) = F.fin (y / rhoW) :=
          fdiv_fin_small hrne (lt_of_le_of_lt (hbnd y hsy) hone)
        have haz : fdiv (F.fin z) (F.fin rhoW) = F.fin (z / rhoW) :=
          fdiv_fin_small hrne (lt_of_le_of_lt (hbnd z hsz) hone)
        rw [hwmag, hnwv]
        cases dt with
        | nan =>
          left
          apply quaternion_multiply_nan_left
          show fcos env (fmul (F.fin (mkRat 1 2)) (fmul (F.fin rhoW) F.nan)) = F.nan
          rw [fmul_nan_right, fmul_nan_right, fcos_nan]
        | pinf =>
          left
          apply quaternion_multiply_nan_left
          show fcos env (fmul (F.fin (mkRat 1 2)) (fmul (F.fin rhoW) F.pinf)) = F.nan
          rw [fmul_fin_pinf_pos hrpos, fmul_fin_pinf_pos half_pos, fcos_pinf]
        | ninf =>
          left
          apply quaternion_multiply_nan_left
          show fcos env (fmul (F.fin (mkRat 1 2)) (fmul (F.fin rhoW) F.ninf)) = F.nan
          rw [fmul_fin_ninf_pos hrpos, fmul_fin_ninf_pos half_pos, fcos_ninf]
        | fin t =>
          have htheta : fmul (F.fin rhoW) (F.fin t) = mkF (rhoW * t) :=
            fmul_fin_fin rhoW t
          rcases mkF_cases (rhoW * t) with ⟨hth, hthb⟩ | hth | hth
          · have hhalf : fmul (F.fin (mkRat 1 2)) (F.fin (rhoW * t)) =
                F.fin (mkRat 1 2 * (rhoW * t)) := by
              apply fmul_fin_small
              rw [half_eq]
              rw [abs_mul]
              rw [abs_of_pos (by norm_num : (0 : ℚ) < 1 / 2)]
              linarith [abs_nonneg (rhoW * t), hthb]
            set hh := mkRat 1 2 * (rhoW * t) with hhdef
            have hca : |env.cosQ hh| ≤ 1 := hcos hh
            have hsa : |env.sinQ hh| ≤ 1 := hsin hh
            have hpx : fmul (F.fin (env.sinQ hh)) (F.fin (x / rhoW)) =
                F.fin (env.sinQ hh * (x / rhoW)) :=
              fmul_fin_small (lt_of_le_of_lt (abs_mul_le_one hsa (hbnd x hsx)) hone)
            have hpy : fmul (F.fin (env.sinQ hh)) (F.fin (y / rhoW)) =
                F.fin (env.sinQ hh * (y / rhoW)) :=
              fmul_fin_small (lt_of_le_of_lt (abs_mul_le_one hsa (hbnd y hsy)) hone)
            have hpz : fmul (F.fin (env.sinQ hh)) (F.fin (z / rhoW)) =
                F.fin (env.sinQ hh * (z / rhoW)) :=
              fmul_fin_small (lt_of_le_of_lt (abs_mul_le_one hsa (hbnd z hsz)) hone)
            obtain ⟨A, B, C, D, hqm, hA, hB, hC, hD⟩ :=
              quaternion_multiply_bounds hca
                (abs_mul_le_one hsa (hbnd x hsx)) (abs_mul_le_one hsa (hbnd y hsy))
                (abs_mul_le_one hsa (hbnd z hsz)) hqa hqb hqc hqd
            right
            refine ⟨A, B, C, D, ?_, hA, hB, hC, hD⟩
            show quaternion_multiply
              (F4.mk (fcos env (fmul (F.fin (mkRat 1 2))
                  (fmul (F.fin rhoW) (F.fin t))))
                (fmul (fsin env (fmul (F.fin (mkRat 1 2))
                  (fmul (F.fin rhoW) (F.fin t))))
                  (v3sdiv ⟨F.fin x, F.fin y, F.fin z⟩ (F.fin rhoW)).x)
                (fmul (fsin env (fmul (F.fin (mkRat 1 2))
                  (fmul (F.fin rhoW) (F.fin t))))
                  (v3sdiv ⟨F.fin x, F.fin y, F.fin z⟩ (F.fin rhoW)).y)
                (fmul (fsin env (fmul (F.fin (mkRat 1 2))
                  (fmul (F.fin rhoW) (F.fin t))))
                  (v3sdiv ⟨F.fin x, F.fin y, F.fin z⟩ (F.fin rhoW)).z))
              (att_q env s) = F4.mk (F.fin A) (F.fin B) (F.fin C) (F.fin D)
            have hvx : (v3sdiv ⟨F.fin x, F.fin y, F.fin z⟩ (F.fin rhoW)).x =
                F.fin (x / rhoW) := hax
            have hvy : (v3sdiv ⟨F.fin x, F.fin y, F.fin z⟩ (F.fin rhoW)).y =
                F.fin (y / rhoW) := hay
            have hvz : (v3sdiv ⟨F.fin x, F.fin y, F.fin z⟩ (F.fin rhoW)).z =
                F.fin (z / rhoW) := haz
            rw [htheta, hth, hhalf, hvx, hvy, hvz]
            show quaternion_multiply
              (F4.mk (F.fin (env.cosQ hh))
                (fmul (F.fin (env.sinQ hh)) (F.fin (x / rhoW)))
                (fmul (F.fin (env.sinQ hh)) (F.fin (y / rhoW)))
                (fmul (F.fin (env.sinQ hh)) (F.fin (z / rhoW))))
              (att_q env s) = _
            rw [hpx, hpy, hpz, hqv]
            exact hqm
          · left
            apply quaternion_multiply_nan_left
            show fcos env (fmul (F.fin (mkRat 1 2))
              (fmul (F.fin rhoW) (F.fin t))) = F.nan
            rw [htheta, hth, fmul_fin_pinf_pos half_pos, fcos_pinf]
          · left
            apply quaternion_multiply_nan_left
            show fcos env (fmul (F.fin (mkRat 1 2))
              (fmul (F.fin rhoW) (F.fin t))) = F.nan
            rw [htheta, hth, fmul_fin_ninf_pos half_pos, fcos_ninf]

theorem normSq4_id4 : normSq4 id4 = F.fin 1 := by decide

/-- C2.  For every library instance whose cosine and sine respect the machine
range bound |cos|,|sin| <= 1 and whose square root is exact at the three
values where the call consults it, and for every configuration and input, the
quaternion of the state returned by propagate_attitude has squared Euclidean
norm exactly 1 (hence norm 1, within any tolerance including 1e-9): the
non-reset path renormalizes unconditionally, the inner guard substitutes the
exactly-unit identity, and the reset paths return the exactly-unit identity
quaternion.  In this exact-arithmetic model of the IEEE computation the
1e-9 tolerance of the claim is met with zero error. -/
theorem C2_theorem (env : NumEnv) (cfg : EngineCfg) (s : AttitudeState) (dt : F)
    (control_torque external_torque : F3) (position : Option F3)
    (hcos : ∀ x, |env.cosQ x| ≤ 1) (hsin : ∀ x, |env.sinQ x| ≤ 1)
    (h0 : SqrtExactAt env (normSq4 s.quaternion))
    (hw : SqrtExactAt env (normSq3 (att_new_w env cfg s dt control_torque
      external_torque position)))
    (h1 : SqrtExactAt env (normSq4 (att_pre_q env cfg s dt control_torque
      external_torque position))) :
    normSq4 (propagate_attitude env cfg s dt control_torque external_torque
      position).quaternion = F.fin 1 := by
  by_cases hin : (anyNan4 s.quaternion || anyNan3 s.angular_velocity) = true
  · simp only [propagate_attitude, if_pos hin]
    exact normSq4_id4
  · simp only [propagate_attitude, if_neg hin]
    by_cases hout : (anyNan4 (normalize_quaternion env
          (att_pre_q env cfg s dt control_torque external_torque position)) ||
        anyNan3 (att_new_w env cfg s dt control_torque external_torque
          position) ||
        anyNan3 (att_new_h env cfg s dt control_torque)) = true
    · simp only [if_pos hout]
      exact normSq4_id4
    · simp only [if_neg hout]
      show normSq4 (normalize_quaternion env
        (att_pre_q env cfg s dt control_torque external_torque position)) =
        F.fin 1
      rcases att_pre_q_cases env cfg s dt control_torque external_torque
          position hcos hsin h0 hw with hnan | ⟨a, b, c, d, hv, ha, hb, hc, hd⟩
      · exfalso
        apply hout
        rw [normalize_of_nan hnan]
        simp [anyNan4, isNan]
      · rw [hv]
        rw [hv] at h1
        exact normalize_unit env ha hb hc hd h1

/-- C2 witness: the theorem applied at the identity state with zero torques,
unit time step, and the concrete library instance, discharging the range and
exactness hypotheses there. -/
theorem C2_witness :
    normSq4 (propagate_attitude defaultEnv defaultCfg ⟨id4, zero3, zero3⟩
      (F.fin 1) zero3 zero3 none).quaternion = F.fin 1 := by
  apply C2_theorem
  · intro x
    show |(1 : ℚ)| ≤ 1
    norm_num
  · intro x
    show |(0 : ℚ)| ≤ 1
    norm_num
  · have h : normSq4 (AttitudeState.quaternion ⟨id4, zero3, zero3⟩) = F.fin 1 :=
      normSq4_id4
    rw [h]
    have e : sqrtQ0 1 = 1 := by decide
    show 0 ≤ sqrtQ0 1 ∧ sqrtQ0 1 * sqrtQ0 1 = 1
    rw [e]
    norm_num
  · have h : normSq3 (att_new_w defaultEnv defaultCfg ⟨id4, zero3, zero3⟩
        (F.fin 1) zero3 zero3 none) = F.fin 0 := by decide
    rw [h]
    have e : sqrtQ0 0 = 0 := by decide
    show 0 ≤ sqrtQ0 0 ∧ sqrtQ0 0 * sqrtQ0 0 = 0
    rw [e]
    norm_num
  · have h : normSq4 (att_pre_q defaultEnv defaultCfg ⟨id4, zero3, zero3⟩
        (F.fin 1) zero3 zero3 none) = F.fin 1 := by decide
    rw [h]
    have e : sqrtQ0 1 = 1 := by decide
    show 0 ≤ sqrtQ0 1 ∧ sqrtQ0 1 * sqrtQ0 1 = 1
    rw [e]
    norm_num

/-- Density inside one layer: the lower breakpoint's reference density decayed
exponentially, with scale height H = (h_hi - h_lo) / log(rho_lo / rho_hi). -/
noncomputable def layer_density (alt hlo hhi rlo rhi : ℚ) : ℝ :=
  (rlo : ℝ) * Real.exp (-((alt : ℝ) - (hlo : ℝ)) /
    (((hhi : ℝ) - (hlo : ℝ)) / Real.log ((rlo : ℝ) / (rhi : ℝ))))

/-- Linear scan of the layer table: first layer with h_lo <= alt < h_hi wins;
past the table the last tabulated value is returned. -/
noncomputable def densityLoop (alt : ℚ) : List (ℚ × ℚ × ℚ × ℚ) → ℝ
  | [] => 3.561e-15
  | (hlo, hhi, rlo, rhi) :: rest =>
    if hlo ≤ alt ∧ alt < hhi then layer_density alt hlo hhi rlo rhi
    else densityLoop alt rest

/-- PhysicsEngine.atmospheric_density: sea-level density below zero altitude,
table scan otherwise, last tabulated value above the table. -/
noncomputable def atmospheric_density (altitude_km : ℚ) : ℝ :=
  if altitude_km < 0 then 1.225
  else densityLoop altitude_km (mkLayers h_layers rho_layers)

theorem densityLoop_pos_le {alt : ℚ} {L : List (ℚ × ℚ × ℚ × ℚ)}
    (hL : ∀ q ∈ L, 0 < q.2.2.2 ∧ q.2.2.2 < q.2.2.1 ∧
      q.2.2.1 ≤ mkRat 1225 (10 ^ 3) ∧ q.1 < q.2.1) :
    0 < densityLoop alt L ∧ densityLoop alt L ≤ 1.225 := by
  induction L with
  | nil =>
    constructor <;> norm_num [densityLoop]
  | cons head tail ih =>
    obtain ⟨hlo, hhi, rlo, rhi⟩ := head
    obtain ⟨hrhi, hdec, hle, hh⟩ := hL _ (List.mem_cons_self _ _)
    dsimp only at hrhi hdec hle hh
    simp only [densityLoop]
    split_ifs with hcond
    · have hrlo : (0 : ℚ) < rlo := lt_trans hrhi hdec
      have hrloR : (0 : ℝ) < (rlo : ℚ) := by exact_mod_cast hrlo
      constructor
      · exact mul_pos hrloR (Real.exp_pos _)
      · have hquot : (1 : ℝ) < (rlo : ℝ) / (rhi : ℝ) := by
          rw [lt_div_iff (by exact_mod_cast hrhi), one_mul]
          exact_mod_cast hdec
        have hlog : (0 : ℝ) < Real.log ((rlo : ℝ) / (rhi : ℝ)) := Real.log_pos hquot
        have hhR : (0 : ℝ) < (hhi : ℝ) - (hlo : ℝ) := by
          rw [sub_pos]
          exact_mod_cast hh
        have hH : (0 : ℝ) < ((hhi : ℝ) - (hlo : ℝ)) / Real.log ((rlo : ℝ) / (rhi : ℝ)) :=
          div_pos hhR hlog
        have halt : (0 : ℝ) ≤ (alt : ℝ) - (hlo : ℝ) := by
          rw [sub_nonneg]
          exact_mod_cast hcond.1
        have hexple : Real.exp (-((alt : ℝ) - (hlo : ℝ)) /
            (((hhi : ℝ) - (hlo : ℝ)) / Real.log ((rlo : ℝ) / (rhi : ℝ)))) ≤ 1 := by
          rw [Real.exp_le_one_iff]
          apply div_nonpos_of_nonpos_of_nonneg
          · linarith
          · linarith
        calc layer_density alt hlo hhi rlo rhi ≤ (rlo : ℝ) * 1 := by
              apply mul_le_mul_of_nonneg_left hexple (le_of_lt hrloR)
          _ = (rlo : ℝ) := mul_one _
          _ ≤ 1.225 := by
              have h1 : (mkRat 1225 (10 ^ 3) : ℚ) = 1.225 := by
                rw [Rat.mkRat_eq_divInt, Rat.divInt_eq_div]
                norm_num
              have h2 : ((1.225 : ℚ) : ℝ) = 1.225 := by norm_num
              rw [← h2, ← h1]
              exact_mod_cast hle
    · exact ih (fun q hq => hL q (List.mem_cons_of_mem _ hq))

theorem densityLoop_past {alt : ℚ} {L : List (ℚ × ℚ × ℚ × ℚ)}
    (hL : ∀ q ∈ L, q.2.1 ≤ alt) : densityLoop alt L = 3.561e-15 := by
  induction L with
  | nil => rfl
  | cons head tail ih =>
    obtain ⟨hlo, hhi, rlo, rhi⟩ := head
    have hhi_le : hhi ≤ alt := hL _ (List.mem_cons_self _ _)
    simp only [densityLoop]
    rw [if_neg (by rintro ⟨-, h2⟩; exact absurd h2 (not_lt.mpr hhi_le))]
    exact ih (fun q hq => hL q (List.mem_cons_of_mem _ hq))

theorem densityLoop_hit {alt : ℚ} :
    ∀ (L : List (ℚ × ℚ × ℚ × ℚ)) (i : ℕ), i < L.length →
    (∀ j, j < i →
      ¬((L.getD j (0, 0, 0, 0)).1 ≤ alt ∧ alt < (L.getD j (0, 0, 0, 0)).2.1)) →
    (L.getD i (0, 0, 0, 0)).1 ≤ alt → alt < (L.getD i (0, 0, 0, 0)).2.1 →
    densityLoop alt L = layer_density alt (L.getD i (0, 0, 0, 0)).1
      (L.getD i (0, 0, 0, 0)).2.1 (L.getD i (0, 0, 0, 0)).2.2.1
      (L.getD i (0, 0, 0, 0)).2.2.2 := by
  intro L
  induction L with
  | nil => intro i hi; exact absurd hi (by simp)
  | cons head tail ih =>
    intro i hi hskip h1 h2
    obtain ⟨hlo, hhi, rlo, rhi⟩ := head
    cases i with
    | zero =>
      simp only [List.getD_cons_zero] at h1 h2 ⊢
      simp only [densityLoop]
      rw [if_pos ⟨h1, h2⟩]
    | succ n =>
      have hhead : ¬((hlo : ℚ) ≤ alt ∧ alt < hhi) := by
        have := hskip 0 (Nat.succ_pos n)
        simpa using this
      simp only [densityLoop]
      rw [if_neg hhead]
      have hn : n < tail.length := by simpa using hi
      have hrec := ih n hn (fun j hji => by
        have := hskip (j + 1) (Nat.succ_lt_succ hji)
        simpa using this)
      simp only [List.getD_cons_succ] at h1 h2 ⊢
      exact hrec h1 h2

/-- C10.  For every rational altitude, the atmospheric density is strictly
positive and never exceeds the sea-level value 1.225; it is exactly 1.225 for
negative altitudes, exactly the last tabulated value 3.561e-15 at or above
1000 km, and inside each table layer it is the lower breakpoint's reference
density decayed exponentially with the scale height derived from the two
bounding breakpoints. -/
theorem C10_theorem (alt : ℚ) :
    (0 < atmospheric_density alt ∧ atmospheric_density alt ≤ 1.225) ∧
    (alt < 0 → atmospheric_density alt = 1.225) ∧
    (1000 ≤ alt → atmospheric_density alt = 3.561e-15) ∧
    (∀ i : ℕ, i + 1 < h_layers.length →
      h_layers.getD i 0 ≤ alt → alt < h_layers.getD (i + 1) 0 →
      atmospheric_density alt =
        layer_density alt (h_layers.getD i 0) (h_layers.getD (i + 1) 0)
          (rho_layers.getD i 0) (rho_layers.getD (i + 1) 0)) := by
  have htable : ∀ q ∈ mkLayers h_layers rho_layers,
      0 < q.2.2.2 ∧ q.2.2.2 < q.2.2.1 ∧ q.2.2.1 ≤ mkRat 1225 (10 ^ 3) ∧
      q.1 < q.2.1 := by
    decide
  have hupper : ∀ q ∈ mkLayers h_layers rho_layers, q.2.1 ≤ 1000 := by decide
  have hlen : (mkLayers h_layers rho_layers).length = 25 := by decide
  have hhlen : h_layers.length = 26 := by decide
  have hgetd : ∀ i : Fin 25,
      (mkLayers h_layers rho_layers).getD i (0, 0, 0, 0) =
        (h_layers.getD i 0, h_layers.getD (i + 1) 0, rho_layers.getD i 0,
          rho_layers.getD (i + 1) 0) := by
    decide
  have hsorted : ∀ i j : Fin 25, (j : ℕ) < (i : ℕ) →
      ((mkLayers h_layers rho_layers).getD j (0, 0, 0, 0)).2.1 ≤
        ((mkLayers h_layers rho_layers).getD i (0, 0, 0, 0)).1 := by
    decide
  have hnonneg : ∀ i : Fin 25,
      0 ≤ ((mkLayers h_layers rho_layers).getD i (0, 0, 0, 0)).1 := by
    decide
  refine ⟨?_, ?_, ?_, ?_⟩
  · unfold atmospheric_density
    split_ifs with h
    · constructor <;> norm_num
    · exact densityLoop_pos_le htable
  · intro h
    unfold atmospheric_density
    rw [if_pos h]
  · intro h
    unfold atmospheric_density
    rw [if_neg (by linarith)]
    exact densityLoop_past (fun q hq => le_trans (hupper q hq) h)
  · intro i hi1 hlo halt
    rw [hhlen] at hi1
    have hi25 : i < 25 := by omega
    have hget := hgetd ⟨i, hi25⟩
    simp only at hget
    have h0alt : ¬ (alt < 0) := by
      have := hnonneg ⟨i, hi25⟩
      rw [hget] at this
      simp only at this
      push_neg
      linarith
    unfold atmospheric_density
    rw [if_neg h0alt]
    have hres := densityLoop_hit (mkLayers h_layers rho_layers) i
      (by rw [hlen]; exact hi25)
      (fun j hji => by
        have hj25 : j < 25 := by omega
        have hs := hsorted ⟨i, hi25⟩ ⟨j, hj25⟩ hji
        rw [hget] at hs
        simp only at hs
        rintro ⟨-, hcon⟩
        exact absurd hcon (not_lt.mpr (le_trans hs hlo)))
      (by rw [hget]; exact hlo) (by rw [hget]; exact halt)
    rw [hres, hget]

/-- C10 witness: the theorem applied at concrete altitudes -1 (below the
table), 10 (inside the first layer) and 1200 (above the table). -/
theorem C10_witness :
    (0 < atmospheric_density (-1) ∧ atmospheric_density (-1) ≤ 1.225) ∧
    atmospheric_density (-1) = 1.225 ∧
    atmospheric_density 1200 = 3.561e-15 ∧
    atmospheric_density 10 =
      layer_density 10 (h_layers.getD 0 0) (h_layers.getD 1 0)
        (rho_layers.getD 0 0) (rho_layers.getD 1 0) := by
  refine ⟨(C10_theorem (-1)).1, (C10_theorem (-1)).2.1 (by norm_num),
    (C10_theorem 1200).2.2.1 (by norm_num),
    (C10_theorem 10).2.2.2 0 (by decide) (by decide) (by decide)⟩

/-- C8.  For every library instance, gain, orbital state, target altitude,
earth radius and noise sample: when the machine comparison
|target - (|position| - earth_radius)| < 5 holds, compute_orbit_control
returns exactly the zero vector with no noise added; otherwise it returns
radial_unit_vector * altitude_error * gain plus the per-axis noise sample. -/
theorem C8_theorem (env : NumEnv) (orbit_gain : F) (st : OrbitalState)
    (target_altitude earth_radius : F) (thrust_noise : F3) :
    (fltb (fabsF (fsub target_altitude
        (fsub (norm3 env st.position) earth_radius))) (F.fin 5) = true →
      compute_orbit_control env orbit_gain st target_altitude earth_radius
        thrust_noise = zero3) ∧
    (fltb (fabsF (fsub target_altitude
        (fsub (norm3 env st.position) earth_radius))) (F.fin 5) = false →
      compute_orbit_control env orbit_gain st target_altitude earth_radius
        thrust_noise =
      v3add (v3smul (v3smul (v3sdiv st.position (norm3 env st.position))
        (fsub target_altitude (fsub (norm3 env st.position) earth_radius)))
        orbit_gain) thrust_noise) := by
  constructor
  · intro h
    simp only [compute_orbit_control, h, if_true]
  · intro h
    simp only [compute_orbit_control, h, Bool.false_eq_true, if_false]

/-- C8 witness: dead-band case at altitude error 1 km (position (7000,0,0),
target 630, radius 6371) and active case at altitude error 71 km (target
700), at the concrete library instance. -/
theorem C8_witness :
    compute_orbit_control defaultEnv (F.fin (mkRat 1 (10 ^ 5)))
      ⟨⟨F.fin 7000, F.fin 0, F.fin 0⟩, zero3⟩ (F.fin 630) (F.fin 6371)
      ⟨F.fin 1, F.fin 2, F.fin 3⟩ = zero3 ∧
    compute_orbit_control defaultEnv (F.fin (mkRat 1 (10 ^ 5)))
      ⟨⟨F.fin 7000, F.fin 0, F.fin 0⟩, zero3⟩ (F.fin 700) (F.fin 6371)
      ⟨F.fin 1, F.fin 2, F.fin 3⟩ =
      v3add (v3smul (v3smul (v3sdiv ⟨F.fin 7000, F.fin 0, F.fin 0⟩
        (norm3 defaultEnv ⟨F.fin 7000, F.fin 0, F.fin 0⟩))
        (fsub (F.fin 700) (fsub (norm3 defaultEnv ⟨F.fin 7000, F.fin 0, F.fin 0⟩)
          (F.fin 6371)))) (F.fin (mkRat 1 (10 ^ 5)))) ⟨F.fin 1, F.fin 2, F.fin 3⟩ := by
  constructor
  · exact (C8_theorem defaultEnv (F.fin (mkRat 1 (10 ^ 5)))
      ⟨⟨F.fin 7000, F.fin 0, F.fin 0⟩, zero3⟩ (F.fin 630) (F.fin 6371)
      ⟨F.fin 1, F.fin 2, F.fin 3⟩).1 (by decide)
  · exact (C8_theorem defaultEnv (F.fin (mkRat 1 (10 ^ 5)))
      ⟨⟨F.fin 7000, F.fin 0, F.fin 0⟩, zero3⟩ (F.fin 700) (F.fin 6371)
      ⟨F.fin 1, F.fin 2, F.fin 3⟩).2 (by decide)

theorem get_active_attack_eq_find (scenarios : List CyberScenario) (t : ℚ) :
    get_active_attack scenarios t = scenarios.find? (fun sc =>
      decide (sc.start_time ≤ t ∧ t < sc.start_time + sc.duration)) := by
  induction scenarios with
  | nil => rfl
  | cons sc rest ih =>
    by_cases h : sc.start_time ≤ t ∧ t < sc.start_time + sc.duration
    · rw [get_active_attack, if_pos (by rwa [qadd_eq]),
        List.find?_cons_of_pos _ (by simpa using h)]
    · rw [get_active_attack, if_neg (by rwa [qadd_eq]),
        List.find?_cons_of_neg _ (by simpa using h), ih]

/-- C6.  get_active_attack returns the first scenario in list order whose
half-open window [start, start + duration) contains the query time, and none
when no window contains it; in particular with scenarios A: [0,500) and
B: [5000,8000), time 500 yields none (half-open upper bound) and time 5000
yields B. -/
theorem C6_theorem (scenarios : List CyberScenario) (t : ℚ) :
    get_active_attack scenarios t = scenarios.find? (fun sc =>
      decide (sc.start_time ≤ t ∧ t < sc.start_time + sc.duration)) ∧
    get_active_attack [scenarioA, scenarioB] 500 = none ∧
    get_active_attack [scenarioA, scenarioB] 5000 = some scenarioB := by
  refine ⟨get_active_attack_eq_find scenarios t, by decide, by decide⟩

theorem pyInt_eq_floor {q : ℚ} (h : 0 ≤ q) : pyInt q = ⌊q⌋ := by
  rw [Rat.floor_def, pyInt]
  exact Int.tdiv_eq_ediv (Rat.num_nonneg.mpr h) (by positivity)

/-- C7.  With an active DenialOfService attack of nonnegative intensity i
over n commands, apply_attack drops exactly the first floor(n*i) commands,
leaves the rest unchanged and in order, leaves the telemetry unchanged, and
returns effective error rate base + i*0.7; for i = 0.9 over 10 commands it
drops the first 9 and the rate becomes base + 0.63. -/
theorem C7_theorem (cenv : CyberEnv) (rnd : SpoofRand) (base_error_rate : ℚ)
    (attack : CyberScenario) (t : ℚ) (commands : List Cmd)
    (telemetry : Telemetry) (signer : Option ℕ)
    (htype : attack.attack_type = CyberAttack.DENIAL_OF_SERVICE)
    (hactive : attack.start_time ≤ t ∧ t < attack.start_time + attack.duration)
    (hint : 0 ≤ attack.intensity) :
    apply_attack cenv rnd base_error_rate attack t commands telemetry signer =
      some (commands.drop (⌊(commands.length : ℚ) * attack.intensity⌋).toNat,
        telemetry, base_error_rate + attack.intensity * (7 / 10)) ∧
    (attack.intensity = 9 / 10 → commands.length = 10 →
      apply_attack cenv rnd base_error_rate attack t commands telemetry signer =
        some (commands.drop 9, telemetry, base_error_rate + 63 / 100)) := by
  have hguard : ¬ (t < attack.start_time ∨
      qadd attack.start_time attack.duration < t) := by
    rw [qadd_eq]
    push_neg
    exact ⟨hactive.1, le_of_lt hactive.2⟩
  have hmain : apply_attack cenv rnd base_error_rate attack t commands telemetry
      signer = some (commands.drop
        (⌊(commands.length : ℚ) * attack.intensity⌋).toNat,
        telemetry, base_error_rate + attack.intensity * (7 / 10)) := by
    have hcnt : (pyInt (qmul (mkRat (commands.length : ℤ) 1)
        attack.intensity)).toNat =
        (⌊(commands.length : ℚ) * attack.intensity⌋).toNat := by
      rw [show (mkRat (commands.length : ℤ) 1 : ℚ) = (commands.length : ℚ) by
            rw [Rat.mkRat_eq_divInt, Rat.divInt_eq_div]; norm_num,
          qmul_eq, pyInt_eq_floor (by positivity)]
    have hrate : qadd base_error_rate (qmul attack.intensity (mkRat 7 10)) =
        base_error_rate + attack.intensity * (7 / 10) := by
      rw [qadd_eq, qmul_eq, show (mkRat 7 10 : ℚ) = 7 / 10 by
        rw [Rat.mkRat_eq_divInt, Rat.divInt_eq_div]; norm_num]
    simp only [apply_attack, if_neg hguard, htype]
    rw [hcnt, hrate]
  refine ⟨hmain, fun hi hn => ?_⟩
  rw [hmain, hi, hn]
  have h9 : (⌊((10 : ℕ) : ℚ) * (9 / 10)⌋).toNat = 9 := by
    have hfl : ⌊((10 : ℕ) : ℚ) * (9 / 10)⌋ = 9 := by norm_num
    rw [hfl]
    rfl
  rw [h9]
  norm_num

/-- C7 witness: the theorem applied to a concrete active DoS scenario of
intensity 0.9 over ten concrete commands. -/
theorem C7_witness :
    apply_attack defaultCyberEnv defaultRand (mkRat 1 5) dosScenario 50
      (List.replicate 10 dummyCmd) ⟨none, none, none⟩ none =
      some ((List.replicate 10 dummyCmd).drop 9, ⟨none, none, none⟩,
        mkRat 1 5 + 63 / 100) := by
  have h910 : (mkRat 9 10 : ℚ) = 9 / 10 := by
    rw [Rat.mkRat_eq_divInt, Rat.divInt_eq_div]
    norm_num
  have h := C7_theorem defaultCyberEnv defaultRand (mkRat 1 5) dosScenario 50
    (List.replicate 10 dummyCmd) ⟨none, none, none⟩ none rfl
    ⟨by norm_num [dosScenario], by norm_num [dosScenario]⟩
    (by rw [show dosScenario.intensity = mkRat 9 10 from rfl, h910]; norm_num)
  exact h.2 (by rw [show dosScenario.intensity = mkRat 9 10 from rfl, h910])
    (by simp)

/-- C4.  verify_command is a total function of the message (every internal
failure, including malformed hex and signature rejection, is mapped to the
unverified result None rather than an exception): with authentication
administratively disabled it returns the text before the first '|'
unconditionally; with authentication enabled it returns None whenever the
auth tag is not "ed25519", no public key is configured, the signature hex is
malformed, or the signature does not verify, and returns the text before the
first '|' when the signature verifies. -/
theorem C4_theorem (defense : Option DefenseSystemConfig) (pub : Option ℕ)
    (msg : Cmd) :
    (auth_disabled defense = true →
      verify_command defense pub msg = some (bodyBeforeBar msg.command)) ∧
    (auth_disabled defense = false →
      (msg.auth ≠ "ed25519".toList → verify_command defense pub msg = none) ∧
      (pub = none → verify_command defense pub msg = none) ∧
      (msg.signature = Sig.badHex → verify_command defense pub msg = none) ∧
      (∀ pk, pub = some pk → sigVerify pk msg.signature msg.command = false →
        verify_command defense pub msg = none) ∧
      (∀ pk, pub = some pk → msg.auth = "ed25519".toList →
        sigVerify pk msg.signature msg.command = true →
        verify_command defense pub msg = some (bodyBeforeBar msg.command))) := by
  constructor
  · intro h
    unfold verify_command
    rw [if_pos h]
  · intro h
    have hoff : ¬ (auth_disabled defense = true) := by simp [h]
    refine ⟨?_, ?_, ?_, ?_, ?_⟩
    · intro ha
      unfold verify_command
      rw [if_neg hoff, if_pos ha]
    · intro hp
      subst hp
      unfold verify_command
      rw [if_neg hoff]
      by_cases hau : msg.auth ≠ "ed25519".toList
      · rw [if_pos hau]
      · rw [if_neg hau]
    · intro hs
      unfold verify_command
      rw [if_neg hoff]
      by_cases hau : msg.auth ≠ "ed25519".toList
      · rw [if_pos hau]
      · rw [if_neg hau, hs]
        cases pub <;> rfl
    · intro pk hpk hv
      subst hpk
      unfold verify_command
      rw [if_neg hoff]
      by_cases hau : msg.auth ≠ "ed25519".toList
      · rw [if_pos hau]
      · rw [if_neg hau]
        cases hsig : msg.signature with
        | signed sk m =>
          rw [hsig] at hv
          show (if sk = pk ∧ m = msg.command then some (bodyBeforeBar msg.command)
            else none) = none
          rw [if_neg]
          rintro ⟨h1, h2⟩
          simp [sigVerify, h1, h2] at hv
        | randomBytes seed => rfl
        | badHex => rfl
    · intro pk hpk hau hv
      subst hpk
      unfold verify_command
      rw [if_neg hoff, if_neg (by simp [hau])]
      cases hsig : msg.signature with
      | signed sk m =>
        rw [hsig] at hv
        simp only [sigVerify, Bool.and_eq_true, decide_eq_true_eq] at hv
        show (if sk = pk ∧ m = msg.command then some (bodyBeforeBar msg.command)
          else none) = some (bodyBeforeBar msg.command)
        rw [if_pos ⟨hv.1, hv.2⟩]
      | randomBytes seed =>
        rw [hsig] at hv
        simp [sigVerify] at hv
      | badHex =>
        rw [hsig] at hv
        simp [sigVerify] at hv

/-- C4 witness: the theorem applied with authentication disabled, with a
valid signature, and with malformed hex, at concrete messages. -/
theorem C4_witness :
    verify_command (some ⟨false⟩) none
      ⟨"CMD:1|ab".toList, "none".toList, Sig.badHex⟩ = some ("CMD:1".toList) ∧
    verify_command (some ⟨true⟩) (some 7)
      ⟨"CMD:1|ab".toList, "ed25519".toList, Sig.signed 7 ("CMD:1|ab".toList)⟩ =
      some ("CMD:1".toList) ∧
    verify_command (some ⟨true⟩) (some 7)
      ⟨"CMD:1|ab".toList, "ed25519".toList, Sig.badHex⟩ = none := by
  have h1 := (C4_theorem (some ⟨false⟩) none
    ⟨"CMD:1|ab".toList, "none".toList, Sig.badHex⟩).1 (by decide)
  have h2 := ((C4_theorem (some ⟨true⟩) (some 7)
    ⟨"CMD:1|ab".toList, "ed25519".toList,
      Sig.signed 7 ("CMD:1|ab".toList)⟩).2 (by decide)).2.2.2.2 7 rfl (by decide)
    (by decide)
  have h3 := ((C4_theorem (some ⟨true⟩) (some 7)
    ⟨"CMD:1|ab".toList, "ed25519".toList, Sig.badHex⟩).2 (by decide)).2.2.1 rfl
  refine ⟨?_, ?_, h3⟩
  · rw [h1]
    decide
  · rw [h2]
    decide

/-- C9 counterexample: under an active MALICIOUS_DETUMBLE attack, the
RW_TORQUE command "RW_TORQUE_X:00.500000|abc123" (value 0.5, written
"00.500000") is NOT rewritten to carry the value -0.75: str(0.5) = "0.5"
first matches inside "00.500000" at its second character, so the textual
replacement produces "RW_TORQUE_X:0-0.7500000|abc123", whose value field
"0-0.7500000" is not even a parsable number. -/
theorem C9_counterexample :
    apply_attack defaultCyberEnv defaultRand 0 detumbleScenario 10
      [detumbleCmd] ⟨none, none, none⟩ none =
      some ([⟨"RW_TORQUE_X:0-0.7500000|abc123".toList, "ed25519".toList,
        Sig.badHex⟩], ⟨none, none, none⟩, 0) ∧
    parseFloat ((splitOnChar '|'
      ((splitOnChar ':' "RW_TORQUE_X:0-0.7500000|abc123".toList).getD 1
        [])).getD 0 []) = none := by
  constructor <;> decide

/-- C9 (amended).  Under an active MALICIOUS_DETUMBLE attack apply_attack
maps detumbleOne over the batch, leaving telemetry and error rate
unchanged; detumbleOne never changes the auth tag or the signature field
(no re-signing); commands without "RW_TORQUE" in their text pass through
unmodified; and on an RW_TORQUE command whose value field parses to v, the
command text undergoes a TEXTUAL replacement of every occurrence of
str(v) by str(-v * 1.5) — which equals replacing the numeric value only
when str(v) occurs in the text exactly as the value field, and can
otherwise corrupt the command (see the counterexample). -/
theorem C9_theorem (cenv : CyberEnv) (rnd : SpoofRand) (base_error_rate : ℚ)
    (attack : CyberScenario) (t : ℚ) (commands : List Cmd)
    (telemetry : Telemetry) (signer : Option ℕ)
    (htype : attack.attack_type = CyberAttack.MALICIOUS_DETUMBLE)
    (hactive : attack.start_time ≤ t ∧ t ≤ attack.start_time + attack.duration) :
    apply_attack cenv rnd base_error_rate attack t commands telemetry signer =
      some (commands.map (detumbleOne cenv), telemetry, base_error_rate) ∧
    (∀ c : Cmd, (detumbleOne cenv c).auth = c.auth ∧
      (detumbleOne cenv c).signature = c.signature) ∧
    (∀ c : Cmd, ¬ List.IsInfix ("RW_TORQUE".toList) c.command →
      detumbleOne cenv c = c) ∧
    (∀ (c : Cmd) (v : ℚ), List.IsInfix ("RW_TORQUE".toList) c.command →
      2 ≤ (splitOnChar ':' c.command).length →
      parseFloat ((splitOnChar '|'
        ((splitOnChar ':' c.command).getD 1 [])).getD 0 []) = some v →
      detumbleOne cenv c =
        { c with
          command := replaceAll (cenv.floatStr v)
            (cenv.floatStr (qmul (qneg v) (mkRat 15 10))) c.command }) := by
  have hguard : ¬ (t < attack.start_time ∨
      qadd attack.start_time attack.duration < t) := by
    rw [qadd_eq]
    push_neg
    exact ⟨hactive.1, hactive.2⟩
  refine ⟨?_, ?_, ?_, ?_⟩
  · simp only [apply_attack, if_neg hguard, htype]
  · intro c
    unfold detumbleOne
    by_cases h1 : List.IsInfix ("RW_TORQUE".toList) c.command
    · rw [if_pos h1]
      by_cases h2 : 2 ≤ (splitOnChar ':' c.command).length
      · rw [if_pos h2]
        cases parseFloat ((splitOnChar '|'
            ((splitOnChar ':' c.command).getD 1 [])).getD 0 []) with
        | some v => exact ⟨rfl, rfl⟩
        | none => exact ⟨rfl, rfl⟩
      · rw [if_neg h2]
        exact ⟨rfl, rfl⟩
    · rw [if_neg h1]
      exact ⟨rfl, rfl⟩
  · intro c h1
    unfold detumbleOne
    rw [if_neg h1]
  · intro c v h1 h2 hv
    unfold detumbleOne
    rw [if_pos h1, if_pos h2, hv]

/-- C9 witness: the theorem applied to a two-command batch where str(v)
does occur exactly as the value field ("RW_TORQUE_Y:0.5|abc123" becomes
"RW_TORQUE_Y:-0.75|abc123") and a THRUST command passes through. -/
theorem C9_witness :
    apply_attack defaultCyberEnv defaultRand (mkRat 1 10) detumbleScenario 10
      [⟨"RW_TORQUE_Y:0.5|abc123".toList, "ed25519".toList, Sig.randomBytes 4⟩,
       ⟨"THRUST_X:1.000000|abc123".toList, "ed25519".toList, Sig.badHex⟩]
      ⟨none, none, none⟩ none =
      some ([⟨"RW_TORQUE_Y:-0.75|abc123".toList, "ed25519".toList,
          Sig.randomBytes 4⟩,
        ⟨"THRUST_X:1.000000|abc123".toList, "ed25519".toList, Sig.badHex⟩],
        ⟨none, none, none⟩, mkRat 1 10) := by
  have h := C9_theorem defaultCyberEnv defaultRand (mkRat 1 10)
    detumbleScenario 10
    [⟨"RW_TORQUE_Y:0.5|abc123".toList, "ed25519".toList, Sig.randomBytes 4⟩,
     ⟨"THRUST_X:1.000000|abc123".toList, "ed25519".toList, Sig.badHex⟩]
    ⟨none, none, none⟩ none rfl
    ⟨by norm_num [detumbleScenario], by norm_num [detumbleScenario]⟩
  rw [h.1]
  decide

theorem insertIdx_cons_perm {α : Type} (a : α) : ∀ (n : ℕ) (l : List α),
    n ≤ l.length → List.Perm (l.insertIdx n a) (a :: l)
  | 0, l, _ => by simp
  | n + 1, [], h => by simp at h
  | n + 1, x :: t, h => by
    rw [show (x :: t).insertIdx (n + 1) a = x :: t.insertIdx n a from rfl]
    exact ((insertIdx_cons_perm a n t (by simpa using h)).cons x).trans
      (List.Perm.swap _ _ _)

theorem spoofInsertLoop_perm (cenv : CyberEnv) (rnd : SpoofRand) (sk : ℕ)
    (compromised : Bool) : ∀ (n k : ℕ) (acc : List Cmd),
    List.Perm (spoofInsertLoop cenv rnd sk compromised k n acc)
      (spoofGenerated cenv rnd sk compromised k n ++ acc)
  | 0, k, acc => List.Perm.refl acc
  | n + 1, k, acc => by
    have hstep : spoofInsertLoop cenv rnd sk compromised k (n + 1) acc =
        spoofInsertLoop cenv rnd sk compromised (k + 1) n
          (acc.insertIdx (min (rnd.posPick k) acc.length)
            (make_spoofed_cmd_dict cenv rnd k
              (allowed_cmd_types.getD (rnd.typePick k) []) compromised sk)) :=
      rfl
    have hgen : spoofGenerated cenv rnd sk compromised k (n + 1) =
        make_spoofed_cmd_dict cenv rnd k
          (allowed_cmd_types.getD (rnd.typePick k) []) compromised sk ::
          spoofGenerated cenv rnd sk compromised (k + 1) n := rfl
    rw [hstep, hgen]
    refine (spoofInsertLoop_perm cenv rnd sk compromised n (k + 1) _).trans ?_
    refine (List.Perm.append_left _
      (insertIdx_cons_perm _ _ _ (min_le_right _ _))).trans ?_
    exact List.perm_middle

theorem spoofGenerated_length (cenv : CyberEnv) (rnd : SpoofRand) (sk : ℕ)
    (comp : Bool) : ∀ (n k : ℕ),
    (spoofGenerated cenv rnd sk comp k n).length = n
  | 0, _ => rfl
  | n + 1, k => by
    show (spoofGenerated cenv rnd sk comp (k + 1) n).length + 1 = n + 1
    rw [spoofGenerated_length cenv rnd sk comp n (k + 1)]

theorem verify_command_signed_self (pk : ℕ) (c : Cmd)
    (hau : c.auth = "ed25519".toList)
    (hsig : c.signature = Sig.signed pk c.command) :
    verify_command (some ⟨true⟩) (some pk) c =
      some (bodyBeforeBar c.command) := by
  unfold verify_command
  rw [if_neg (by decide), if_neg (by simp [hau]), hsig]
  exact if_pos ⟨rfl, rfl⟩

theorem verify_command_randomBytes (pub : Option ℕ) (c : Cmd) (s : ℕ)
    (hsig : c.signature = Sig.randomBytes s) :
    verify_command (some ⟨true⟩) pub c = none := by
  unfold verify_command
  rw [if_neg (by decide)]
  by_cases hau : c.auth ≠ "ed25519".toList
  · rw [if_pos hau]
  · rw [if_neg hau]
    cases pub with
    | none => rfl
    | some pk => rw [hsig]

theorem spoofGenerated_mem (cenv : CyberEnv) (rnd : SpoofRand) (sk : ℕ)
    (comp : Bool) : ∀ (n k : ℕ) (c : Cmd),
    c ∈ spoofGenerated cenv rnd sk comp k n →
    c.auth = "ed25519".toList ∧
    (comp = true → c.signature = Sig.signed sk c.command) ∧
    (comp = false → ∃ s, c.signature = Sig.randomBytes s)
  | 0, k, c, h => absurd h (List.not_mem_nil c)
  | n + 1, k, c, h => by
    have hg : spoofGenerated cenv rnd sk comp k (n + 1) =
        make_spoofed_cmd_dict cenv rnd k
          (allowed_cmd_types.getD (rnd.typePick k) []) comp sk ::
          spoofGenerated cenv rnd sk comp (k + 1) n := rfl
    rw [hg, List.mem_cons] at h
    cases h with
    | inl h =>
      subst h
      refine ⟨rfl, fun hc => ?_, fun hc => ?_⟩
      · subst hc
        rfl
      · subst hc
        exact ⟨rnd.urand k, rfl⟩
    | inr h => exact spoofGenerated_mem cenv rnd sk comp n (k + 1) c h

/-- C5.  With an active COMMAND_SPOOFING attack in insert mode and a signer
key present: the generated count is int(len(base)*intensity) — floor for
nonnegative intensity — with a floor of one when the intensity is positive
and the product truncates to zero, and equals 3 for a 6-command batch at
intensity 0.5; apply_attack runs the insert loop, whose output is a
permutation of the generated spoofed commands prepended to the batch (so
exactly that many commands are inserted, 9 total for the 6-command batch at
0.5); and every generated spoofed command passes signature verification
when has_compromised_key is true (real-key signature over its exact
command text) and fails it for every public key when
has_compromised_key is false (random-bytes signature). -/
theorem C5_theorem (cenv : CyberEnv) (rnd : SpoofRand) (base_error_rate : ℚ)
    (attack : CyberScenario) (t : ℚ) (commands : List Cmd)
    (telemetry : Telemetry) (sk : ℕ)
    (htype : attack.attack_type = CyberAttack.COMMAND_SPOOFING)
    (hmode : attack.spoof_mode = "insert".toList)
    (hactive : attack.start_time ≤ t ∧ t ≤ attack.start_time + attack.duration) :
    (∀ (n : ℕ) (i : ℚ), 0 ≤ i →
      num_to_generate n i =
        if 0 < i ∧ ⌊(n : ℚ) * i⌋ = 0 then 1 else (⌊(n : ℚ) * i⌋).toNat) ∧
    num_to_generate 6 (mkRat 1 2) = 3 ∧
    apply_attack cenv rnd base_error_rate attack t commands telemetry
      (some sk) = some (spoofInsertLoop cenv rnd sk
        attack.has_compromised_key 0
        (num_to_generate commands.length attack.intensity) commands,
        telemetry, base_error_rate) ∧
    (∀ (n k : ℕ) (acc : List Cmd),
      List.Perm (spoofInsertLoop cenv rnd sk attack.has_compromised_key k n acc)
        (spoofGenerated cenv rnd sk attack.has_compromised_key k n ++ acc)) ∧
    (∀ (n k : ℕ),
      (spoofGenerated cenv rnd sk attack.has_compromised_key k n).length = n) ∧
    (∀ (n k : ℕ) (c : Cmd),
      c ∈ spoofGenerated cenv rnd sk attack.has_compromised_key k n →
      (attack.has_compromised_key = true →
        verify_command (some ⟨true⟩) (some sk) c =
          some (bodyBeforeBar c.command)) ∧
      (attack.has_compromised_key = false →
        ∀ pub, verify_command (some ⟨true⟩) pub c = none)) ∧
    (commands.length = 6 → attack.intensity = mkRat 1 2 →
      (spoofInsertLoop cenv rnd sk attack.has_compromised_key 0
        (num_to_generate commands.length attack.intensity)
        commands).length = 9) := by
  have hguard : ¬ (t < attack.start_time ∨
      qadd attack.start_time attack.duration < t) := by
    rw [qadd_eq]
    push_neg
    exact ⟨hactive.1, hactive.2⟩
  refine ⟨?_, by decide, ?_, ?_, ?_, ?_, ?_⟩
  · intro n i hi
    simp only [num_to_generate]
    rw [show (mkRat (n : ℤ) 1 : ℚ) = (n : ℚ) by
          rw [Rat.mkRat_eq_divInt, Rat.divInt_eq_div]; norm_num,
        qmul_eq, pyInt_eq_floor (by positivity)]
    have hfl : 0 ≤ ⌊(n : ℚ) * i⌋ := Int.floor_nonneg.mpr (by positivity)
    have hiff : ((⌊(n : ℚ) * i⌋).toNat = 0) ↔ (⌊(n : ℚ) * i⌋ = 0) := by omega
    exact if_congr (and_congr Iff.rfl hiff) rfl rfl
  · simp only [apply_attack, if_neg hguard, htype]
    simp only [spoof, if_pos hmode]
  · exact fun n k acc =>
      spoofInsertLoop_perm cenv rnd sk attack.has_compromised_key n k acc
  · exact fun n k =>
      spoofGenerated_length cenv rnd sk attack.has_compromised_key n k
  · intro n k c hc
    have h := spoofGenerated_mem cenv rnd sk attack.has_compromised_key n k c hc
    refine ⟨fun hcomp => ?_, fun hcomp => ?_⟩
    · exact verify_command_signed_self sk c h.1 (h.2.1 hcomp)
    · obtain ⟨s, hs⟩ := h.2.2 hcomp
      exact fun pub => verify_command_randomBytes pub c s hs
  · intro h6 hint
    have h3 : num_to_generate commands.length attack.intensity = 3 := by
      rw [h6, hint]
      decide
    rw [h3]
    have hp := spoofInsertLoop_perm cenv rnd sk attack.has_compromised_key 3 0
      commands
    rw [hp.length_eq, List.length_append,
      spoofGenerated_length cenv rnd sk attack.has_compromised_key 3 0, h6]

/-- C5 witness: the theorem applied to a concrete 6-command batch at
intensity 0.5, giving 9 commands out. -/
theorem C5_witness :
    apply_attack defaultCyberEnv defaultRand (mkRat 1 5) spoofScenario 50
      (List.replicate 6 dummyCmd) ⟨none, none, none⟩ (some 7) =
      some (spoofInsertLoop defaultCyberEnv defaultRand 7 true 0 3
        (List.replicate 6 dummyCmd), ⟨none, none, none⟩, mkRat 1 5) ∧
    (spoofInsertLoop defaultCyberEnv defaultRand 7 true 0 3
      (List.replicate 6 dummyCmd)).length = 9 := by
  have h := C5_theorem defaultCyberEnv defaultRand (mkRat 1 5) spoofScenario 50
    (List.replicate 6 dummyCmd) ⟨none, none, none⟩ 7 rfl rfl
    ⟨by norm_num [spoofScenario], by norm_num [spoofScenario]⟩
  constructor
  · rw [h.2.2.1]
    rfl
  · exact h.2.2.2.2.2.2 (by simp) rfl


theorem decodeAux_nil : ∀ fuel : ℕ, decodeAux fuel [] = [] := by
  intro fuel
  cases fuel <;> rfl

theorem toNat_ofNat_valid (n : ℕ) (h : n.isValidChar) :
    (Char.ofNat n).toNat = n := by
  unfold Char.ofNat
  rw [dif_pos h]
  rfl

theorem cont_iff {b : ℕ} : cont b = true ↔ 0x80 ≤ b ∧ b < 0xC0 := by
  simp [cont]

theorem snd3ok_bounds {b0 b1 : ℕ} (h : snd3ok b0 b1 = true) :
    0x80 ≤ b1 ∧ b1 < 0xC0 ∧ (b0 = 0xE0 → 0xA0 ≤ b1) ∧
      (b0 = 0xED → b1 < 0xA0) := by
  unfold snd3ok at h
  by_cases h0 : b0 = 0xE0
  · rw [if_pos h0] at h
    simp at h
    exact ⟨by omega, h.2, fun _ => h.1, fun he => by omega⟩
  · rw [if_neg h0] at h
    by_cases hd : b0 = 0xED
    · rw [if_pos hd] at h
      simp at h
      exact ⟨h.1, by omega, fun he => by omega, fun _ => h.2⟩
    · rw [if_neg hd, cont_iff] at h
      exact ⟨h.1, h.2, fun he => by omega, fun he => by omega⟩

theorem snd4ok_bounds {b0 b1 : ℕ} (h : snd4ok b0 b1 = true) :
    0x80 ≤ b1 ∧ b1 < 0xC0 ∧ (b0 = 0xF0 → 0x90 ≤ b1) ∧
      (b0 = 0xF4 → b1 < 0x90) := by
  unfold snd4ok at h
  by_cases h0 : b0 = 0xF0
  · rw [if_pos h0] at h
    simp at h
    exact ⟨by omega, h.2, fun _ => h.1, fun he => by omega⟩
  · rw [if_neg h0] at h
    by_cases hd : b0 = 0xF4
    · rw [if_pos hd] at h
      simp at h
      exact ⟨h.1, by omega, fun he => by omega, fun _ => h.2⟩
    · rw [if_neg hd, cont_iff] at h
      exact ⟨h.1, h.2, fun he => by omega, fun he => by omega⟩

theorem encChar_ascii {b0 : ℕ} (h : b0 < 0x80) :
    encChar (Char.ofNat b0).toNat = [b0] := by
  rw [toNat_ofNat_valid b0 (Or.inl (by omega))]
  unfold encChar
  rw [if_pos h]

theorem encChar_two {b0 b1 : ℕ} (h2 : 0xC2 ≤ b0) (hE : b0 < 0xE0)
    (hc : cont b1 = true) :
    encChar (Char.ofNat ((b0 - 0xC0) * 64 + (b1 - 0x80))).toNat = [b0, b1] := by
  rw [cont_iff] at hc
  rw [toNat_ofNat_valid _ (Or.inl (by omega))]
  unfold encChar
  rw [if_neg (by omega), if_pos (by omega)]
  have e1 : 0xC0 + ((b0 - 0xC0) * 64 + (b1 - 0x80)) / 64 = b0 := by omega
  have e2 : 0x80 + ((b0 - 0xC0) * 64 + (b1 - 0x80)) % 64 = b1 := by omega
  rw [e1, e2]

theorem encChar_three {b0 b1 b2 : ℕ} (h3 : 0xE0 ≤ b0) (hF : b0 < 0xF0)
    (hs : snd3ok b0 b1 = true) (hc : cont b2 = true) :
    encChar (Char.ofNat ((b0 - 0xE0) * 4096 + (b1 - 0x80) * 64 +
      (b2 - 0x80))).toNat = [b0, b1, b2] := by
  obtain ⟨hb1l, hb1h, hE0, hED⟩ := snd3ok_bounds hs
  rw [cont_iff] at hc
  have h800 : 0x800 ≤ (b0 - 0xE0) * 4096 + (b1 - 0x80) * 64 + (b2 - 0x80) := by
    by_cases hd : b0 = 0xE0
    · have := hE0 hd
      omega
    · omega
  have hval : Nat.isValidChar ((b0 - 0xE0) * 4096 + (b1 - 0x80) * 64 +
      (b2 - 0x80)) := by
    by_cases hd : b0 = 0xED
    · exact Or.inl (by have := hED hd; omega)
    · by_cases hee : b0 ≤ 0xEC
      · exact Or.inl (by omega)
      · exact Or.inr (by omega)
  rw [toNat_ofNat_valid _ hval]
  unfold encChar
  rw [if_neg (by omega), if_neg (by omega), if_pos (by omega)]
  have e1 : 0xE0 + ((b0 - 0xE0) * 4096 + (b1 - 0x80) * 64 + (b2 - 0x80)) /
      4096 = b0 := by omega
  have e2 : 0x80 + ((b0 - 0xE0) * 4096 + (b1 - 0x80) * 64 + (b2 - 0x80)) /
      64 % 64 = b1 := by omega
  have e3 : 0x80 + ((b0 - 0xE0) * 4096 + (b1 - 0x80) * 64 + (b2 - 0x80)) %
      64 = b2 := by omega
  rw [e1, e2, e3]

theorem encChar_four {b0 b1 b2 b3 : ℕ} (h4 : 0xF0 ≤ b0) (hF : b0 < 0xF5)
    (hs : snd4ok b0 b1 = true) (hc : cont b2 = true) (hd : cont b3 = true) :
    encChar (Char.ofNat ((b0 - 0xF0) * 262144 + (b1 - 0x80) * 4096 +
      (b2 - 0x80) * 64 + (b3 - 0x80))).toNat = [b0, b1, b2, b3] := by
  obtain ⟨hb1l, hb1h, hF0, hF4⟩ := snd4ok_bounds hs
  rw [cont_iff] at hc
  rw [cont_iff] at hd
  have hlo : 0x10000 ≤ (b0 - 0xF0) * 262144 + (b1 - 0x80) * 4096 +
      (b2 - 0x80) * 64 + (b3 - 0x80) := by
    by_cases hz : b0 = 0xF0
    · have := hF0 hz
      omega
    · omega
  have hhi : (b0 - 0xF0) * 262144 + (b1 - 0x80) * 4096 + (b2 - 0x80) * 64 +
      (b3 - 0x80) < 0x110000 := by
    by_cases hz : b0 = 0xF4
    · have := hF4 hz
      omega
    · omega
  rw [toNat_ofNat_valid _ (Or.inr ⟨by omega, hhi⟩)]
  unfold encChar
  rw [if_neg (by omega), if_neg (by omega), if_neg (by omega)]
  have e1 : 0xF0 + ((b0 - 0xF0) * 262144 + (b1 - 0x80) * 4096 +
      (b2 - 0x80) * 64 + (b3 - 0x80)) / 262144 = b0 := by omega
  have e2 : 0x80 + ((b0 - 0xF0) * 262144 + (b1 - 0x80) * 4096 +
      (b2 - 0x80) * 64 + (b3 - 0x80)) / 4096 % 64 = b1 := by omega
  have e3 : 0x80 + ((b0 - 0xF0) * 262144 + (b1 - 0x80) * 4096 +
      (b2 - 0x80) * 64 + (b3 - 0x80)) / 64 % 64 = b2 := by omega
  have e4 : 0x80 + ((b0 - 0xF0) * 262144 + (b1 - 0x80) * 4096 +
      (b2 - 0x80) * 64 + (b3 - 0x80)) % 64 = b3 := by omega
  rw [e1, e2, e3, e4]

theorem utf8Encode_cons (c : Char) (s : List Char) :
    utf8Encode (c :: s) = encChar c.toNat ++ utf8Encode s := by
  simp [utf8Encode]

theorem encChar_repl : encChar repl.toNat = [0xEF, 0xBF, 0xBD] := by decide

theorem encChar_ne_nil (n : ℕ) : encChar n ≠ [] := by
  unfold encChar
  split_ifs <;> simp

theorem seg_bad1 (b0 : ℕ) {t : List ℕ} {s : List Char} (h : SegList t s) :
    SegList (b0 :: t) (repl :: s) :=
  SegList.bad [b0] t s (by simp) (by simp) (fun hh => absurd hh (by simp)) h

theorem seg_bad2 (b0 b1 : ℕ) {t : List ℕ} {s : List Char} (h : SegList t s) :
    SegList (b0 :: b1 :: t) (repl :: s) :=
  SegList.bad [b0, b1] t s (by simp) (by simp)
    (fun hh => absurd hh (by simp)) h

theorem seg_bad3F (b0 b1 b2 : ℕ) (h0 : 0xF0 ≤ b0) (h5 : b0 < 0xF5)
    {t : List ℕ} {s : List Char} (h : SegList t s) :
    SegList (b0 :: b1 :: b2 :: t) (repl :: s) :=
  SegList.bad [b0, b1, b2] t s (by simp) (by simp)
    (fun _ => ⟨b0, b1, b2, rfl, h0, h5⟩) h

theorem seg_chr1 {b0 : ℕ} {t : List ℕ} {s : List Char} (h80 : b0 < 0x80)
    (h : SegList t s) : SegList (b0 :: t) (Char.ofNat b0 :: s) := by
  have hh := SegList.chr (Char.ofNat b0) t s h
  rw [encChar_ascii h80] at hh
  exact hh

theorem seg_chr2 {b0 b1 : ℕ} {t : List ℕ} {s : List Char} (h2 : 0xC2 ≤ b0)
    (hE : b0 < 0xE0) (hc : cont b1 = true) (h : SegList t s) :
    SegList (b0 :: b1 :: t)
      (Char.ofNat ((b0 - 0xC0) * 64 + (b1 - 0x80)) :: s) := by
  have hh := SegList.chr (Char.ofNat ((b0 - 0xC0) * 64 + (b1 - 0x80))) t s h
  rw [encChar_two h2 hE hc] at hh
  exact hh

theorem seg_chr3 {b0 b1 b2 : ℕ} {t : List ℕ} {s : List Char} (h3 : 0xE0 ≤ b0)
    (hF : b0 < 0xF0) (hs : snd3ok b0 b1 = true) (hc : cont b2 = true)
    (h : SegList t s) :
    SegList (b0 :: b1 :: b2 :: t)
      (Char.ofNat ((b0 - 0xE0) * 4096 + (b1 - 0x80) * 64 + (b2 - 0x80)) :: s) := by
  have hh := SegList.chr
    (Char.ofNat ((b0 - 0xE0) * 4096 + (b1 - 0x80) * 64 + (b2 - 0x80))) t s h
  rw [encChar_three h3 hF hs hc] at hh
  exact hh

theorem seg_chr4 {b0 b1 b2 b3 : ℕ} {t : List ℕ} {s : List Char}
    (h4 : 0xF0 ≤ b0) (hF : b0 < 0xF5) (hs : snd4ok b0 b1 = true)
    (hc : cont b2 = true) (hd : cont b3 = true) (h : SegList t s) :
    SegList (b0 :: b1 :: b2 :: b3 :: t)
      (Char.ofNat ((b0 - 0xF0) * 262144 + (b1 - 0x80) * 4096 +
        (b2 - 0x80) * 64 + (b3 - 0x80)) :: s) := by
  have hh := SegList.chr
    (Char.ofNat ((b0 - 0xF0) * 262144 + (b1 - 0x80) * 4096 +
      (b2 - 0x80) * 64 + (b3 - 0x80))) t s h
  rw [encChar_four h4 hF hs hc hd] at hh
  exact hh

theorem decode_spans : ∀ (fuel : ℕ) (X : List ℕ), X.length ≤ fuel →
    SegList X (decodeAux fuel X) := by
  intro fuel
  induction fuel with
  | zero =>
    intro X hX
    have hnil : X = [] := List.length_eq_zero.mp (Nat.le_zero.mp hX)
    subst hnil
    exact SegList.nil
  | succ fuel ih =>
    intro X hX
    match X with
    | [] => exact SegList.nil
    | [b0] =>
      dsimp only [decodeAux]
      rw [decodeAux_nil]
      split_ifs with h1 h2 h3 h4 h5
      · exact seg_chr1 h1 SegList.nil
      · exact seg_bad1 b0 SegList.nil
      · exact seg_bad1 b0 SegList.nil
      · exact seg_bad1 b0 SegList.nil
      · exact seg_bad1 b0 SegList.nil
      · exact seg_bad1 b0 SegList.nil
    | [b0, b1] =>
      have hr1 : ([b1] : List ℕ).length ≤ fuel := by
        simp at hX ⊢
        omega
      have hr0 : ([] : List ℕ).length ≤ fuel := by simp
      dsimp only [decodeAux]
      rw [decodeAux_nil]
      split_ifs with h1 h2 h3 hc h4 hs3 h5 hs4
      · exact seg_chr1 h1 (ih [b1] hr1)
      · exact seg_bad1 b0 (ih [b1] hr1)
      · exact seg_chr2 (by omega) h3 hc SegList.nil
      · exact seg_bad1 b0 (ih [b1] hr1)
      · exact seg_bad2 b0 b1 SegList.nil
      · exact seg_bad1 b0 (ih [b1] hr1)
      · exact seg_bad2 b0 b1 SegList.nil
      · exact seg_bad1 b0 (ih [b1] hr1)
      · exact seg_bad1 b0 (ih [b1] hr1)
    | [b0, b1, b2] =>
      have hr2 : ([b1, b2] : List ℕ).length ≤ fuel := by
        simp at hX ⊢
        omega
      have hr1 : ([b2] : List ℕ).length ≤ fuel := by
        simp at hX ⊢
        omega
      dsimp only [decodeAux]
      rw [decodeAux_nil]
      split_ifs with h1 h2 h3 hc h4 hs3 hc2 h5 hs4 hc2
      · exact seg_chr1 h1 (ih [b1, b2] hr2)
      · exact seg_bad1 b0 (ih [b1, b2] hr2)
      · exact seg_chr2 (by omega) h3 hc (ih [b2] hr1)
      · exact seg_bad1 b0 (ih [b1, b2] hr2)
      · exact seg_chr3 (by omega) h4 hs3 hc2 SegList.nil
      · exact seg_bad2 b0 b1 (ih [b2] hr1)
      · exact seg_bad1 b0 (ih [b1, b2] hr2)
      · exact seg_bad3F b0 b1 b2 (by omega) h5 SegList.nil
      · exact seg_bad2 b0 b1 (ih [b2] hr1)
      · exact seg_bad1 b0 (ih [b1, b2] hr2)
      · exact seg_bad1 b0 (ih [b1, b2] hr2)
    | b0 :: b1 :: b2 :: b3 :: rest3 =>
      have hr3 : (b1 :: b2 :: b3 :: rest3).length ≤ fuel := by
        simp at hX ⊢
        omega
      have hr2 : (b2 :: b3 :: rest3).length ≤ fuel := by
        simp at hX ⊢
        omega
      have hr1 : (b3 :: rest3).length ≤ fuel := by
        simp at hX ⊢
        omega
      have hr0 : rest3.length ≤ fuel := by
        simp at hX ⊢
        omega
      dsimp only [decodeAux]
      split_ifs with h1 h2 h3 hc h4 hs3 hc2 h5 hs4 hc2 hc3
      · exact seg_chr1 h1 (ih _ hr3)
      · exact seg_bad1 b0 (ih _ hr3)
      · exact seg_chr2 (by omega) h3 hc (ih _ hr2)
      · exact seg_bad1 b0 (ih _ hr3)
      · exact seg_chr3 (by omega) h4 hs3 hc2 (ih _ hr1)
      · exact seg_bad2 b0 b1 (ih _ hr2)
      · exact seg_bad1 b0 (ih _ hr3)
      · exact seg_chr4 (by omega) h5 hs4 hc2 hc3 (ih _ hr0)
      · exact seg_bad3F b0 b1 b2 (by omega) h5 (ih _ hr1)
      · exact seg_bad2 b0 b1 (ih _ hr2)
      · exact seg_bad1 b0 (ih _ hr3)
      · exact seg_bad1 b0 (ih _ hr3)


theorem seg_len_le {X : List ℕ} {s : List Char} (h : SegList X s) :
    X.length ≤ (utf8Encode s).length := by
  induction h with
  | nil => simp
  | chr c t s h ih =>
    rw [utf8Encode_cons]
    simp only [List.length_append]
    omega
  | bad xs t s h1 h3 hlead h ih =>
    rw [utf8Encode_cons, encChar_repl]
    simp only [List.length_append]
    simp at ih ⊢
    omega

theorem popcnt8_zero : popcnt8 0 = 0 := rfl

theorem natxor_self (x : ℕ) : Nat.xor x x = 0 := Nat.xor_self x

theorem natxor_zero (x : ℕ) : Nat.xor x 0 = x := Nat.xor_zero x

theorem natxor_comm (a b : ℕ) : Nat.xor a b = Nat.xor b a := Nat.xor_comm a b

theorem natxor_assoc (a b c : ℕ) :
    Nat.xor (Nat.xor a b) c = Nat.xor a (Nat.xor b c) := Nat.xor_assoc a b c

theorem bitDiff_self : ∀ X : List ℕ, bitDiff X X = 0
  | [] => rfl
  | x :: xs => by
    show popcnt8 (Nat.xor x x) + bitDiff xs xs = 0
    rw [natxor_self, popcnt8_zero, bitDiff_self xs]

theorem bitDiff_append : ∀ (a c b d : List ℕ), a.length = c.length →
    bitDiff (a ++ b) (c ++ d) = bitDiff a c + bitDiff b d
  | [], [], b, d, _ => by simp [bitDiff]
  | [], c :: cs, b, d, h => by simp at h
  | a :: as, [], b, d, h => by simp at h
  | a :: as, c :: cs, b, d, h => by
    show popcnt8 (Nat.xor a c) + bitDiff (as ++ b) (cs ++ d) = _
    rw [bitDiff_append as cs b d (by simpa using h)]
    show _ = popcnt8 (Nat.xor a c) + bitDiff as cs + bitDiff b d
    omega

theorem pcF_lead : ∀ b1 : ℕ, b1 < 0xF5 → 0xF0 ≤ b1 →
    3 ≤ popcnt8 (Nat.xor b1 0xEF) := by decide

theorem pc_single : ∀ a : ℕ, a < 8 → popcnt8 (2 ^ a) = 1 := by decide

theorem pc_double : ∀ a : ℕ, a < 8 → ∀ b : ℕ, b < 8 → a ≠ b →
    popcnt8 (Nat.xor (2 ^ a) (2 ^ b)) = 2 := by decide

theorem xor_xor_cancel (b m : ℕ) : Nat.xor (Nat.xor b m) b = m := by
  rw [natxor_comm b m, natxor_assoc, natxor_self, natxor_zero]

theorem xor_xor_xor_cancel (b mi mj : ℕ) :
    Nat.xor (Nat.xor (Nat.xor b mi) mj) b = Nat.xor mi mj := by
  rw [natxor_assoc b mi mj, natxor_comm b (Nat.xor mi mj), natxor_assoc,
    natxor_self, natxor_zero]

theorem seg_bitDiff_eq {X : List ℕ} {s : List Char} (h : SegList X s) :
    X.length = (utf8Encode s).length → bitDiff X (utf8Encode s) < 3 →
    X = utf8Encode s := by
  induction h with
  | nil => intro _ _; rfl
  | chr c t s h ih =>
    intro hlen hdiff
    rw [utf8Encode_cons] at hlen hdiff ⊢
    have hl : t.length = (utf8Encode s).length := by
      simp only [List.length_append] at hlen
      omega
    rw [bitDiff_append _ _ _ _ rfl, bitDiff_self] at hdiff
    rw [ih hl (by omega)]
  | bad xs t s h1 h3 hlead h ih =>
    intro hlen hdiff
    rw [utf8Encode_cons, encChar_repl] at hlen hdiff
    have htle := seg_len_le h
    have hxs3 : xs.length = 3 := by
      simp only [List.length_append] at hlen
      simp at hlen
      omega
    obtain ⟨b1, b2, b3, hxseq, hf0, hf5⟩ := hlead hxs3
    subst hxseq
    rw [bitDiff_append _ _ _ _ (by simp)] at hdiff
    have hpc : 3 ≤ popcnt8 (Nat.xor b1 0xEF) := pcF_lead b1 hf5 hf0
    have hbd : bitDiff [b1, b2, b3] [0xEF, 0xBF, 0xBD] =
        popcnt8 (Nat.xor b1 0xEF) + (popcnt8 (Nat.xor b2 0xBF) +
          (popcnt8 (Nat.xor b3 0xBD) + 0)) := rfl
    omega

theorem getD_set_eq : ∀ (X : List ℕ) (k v : ℕ), k < X.length →
    (X.set k v).getD k 0 = v
  | [], k, v, h => absurd h (by simp)
  | x :: xs, 0, v, _ => rfl
  | x :: xs, k + 1, v, h => getD_set_eq xs k v (by simpa using h)

theorem getD_set_ne : ∀ (X : List ℕ) (k k2 v : ℕ), k ≠ k2 →
    (X.set k v).getD k2 0 = X.getD k2 0
  | [], _, _, _, _ => rfl
  | x :: xs, 0, 0, v, h => absurd rfl h
  | x :: xs, 0, k2 + 1, v, _ => rfl
  | x :: xs, k + 1, 0, v, _ => rfl
  | x :: xs, k + 1, k2 + 1, v, h => getD_set_ne xs k k2 v (by omega)

theorem bitDiff_set : ∀ (X : List ℕ) (k v : ℕ), k < X.length →
    bitDiff (X.set k v) X = popcnt8 (Nat.xor v (X.getD k 0))
  | [], k, v, h => absurd h (by simp)
  | x :: xs, 0, v, _ => by
    show popcnt8 (Nat.xor v x) + bitDiff xs xs = popcnt8 (Nat.xor v x)
    rw [bitDiff_self]
    omega
  | x :: xs, k + 1, v, h => by
    show popcnt8 (Nat.xor x x) + bitDiff (xs.set k v) xs =
      popcnt8 (Nat.xor v (xs.getD k 0))
    rw [natxor_self, popcnt8_zero, bitDiff_set xs k v (by simpa using h)]
    omega

theorem bitDiff_set_set_ne : ∀ (X : List ℕ) (k1 v1 k2 v2 : ℕ), k1 ≠ k2 →
    k1 < X.length → k2 < X.length →
    bitDiff ((X.set k1 v1).set k2 v2) X =
      popcnt8 (Nat.xor v1 (X.getD k1 0)) + popcnt8 (Nat.xor v2 (X.getD k2 0))
  | [], _, _, _, _, _, h, _ => absurd h (by simp)
  | x :: xs, 0, v1, 0, v2, h, _, _ => absurd rfl h
  | x :: xs, 0, v1, k2 + 1, v2, _, _, h2 => by
    show popcnt8 (Nat.xor v1 x) + bitDiff (xs.set k2 v2) xs =
      popcnt8 (Nat.xor v1 x) + popcnt8 (Nat.xor v2 (xs.getD k2 0))
    rw [bitDiff_set xs k2 v2 (by simpa using h2)]
  | x :: xs, k1 + 1, v1, 0, v2, _, h1, _ => by
    show popcnt8 (Nat.xor v2 x) + bitDiff (xs.set k1 v1) xs =
      popcnt8 (Nat.xor v1 (xs.getD k1 0)) + popcnt8 (Nat.xor v2 x)
    rw [bitDiff_set xs k1 v1 (by simpa using h1)]
    omega
  | x :: xs, k1 + 1, v1, k2 + 1, v2, h, h1, h2 => by
    show popcnt8 (Nat.xor x x) + bitDiff ((xs.set k1 v1).set k2 v2) xs =
      popcnt8 (Nat.xor v1 (xs.getD k1 0)) + popcnt8 (Nat.xor v2 (xs.getD k2 0))
    rw [natxor_self, popcnt8_zero,
      bitDiff_set_set_ne xs k1 v1 k2 v2 (by omega) (by simpa using h1)
        (by simpa using h2)]
    omega

theorem length_flipBit (X : List ℕ) (b : ℕ) :
    (flipBit X b).length = X.length := by
  simp [flipBit]

theorem flip2_length (B : List ℕ) (i j : ℕ) :
    (flipBit (flipBit B i) j).length = B.length := by
  rw [length_flipBit, length_flipBit]

theorem flip2_bitDiff (B : List ℕ) (i j : ℕ) (hij : i ≠ j)
    (hi : i < 8 * B.length) (hj : j < 8 * B.length) :
    bitDiff (flipBit (flipBit B i) j) B = 2 := by
  have hki : i / 8 < B.length := by omega
  have hkj : j / 8 < B.length := by omega
  by_cases hk : i / 8 = j / 8
  · have hm : i % 8 ≠ j % 8 := by omega
    unfold flipBit
    rw [← hk, getD_set_eq B (i / 8) _ hki, List.set_set,
      bitDiff_set B (i / 8) _ hki, xor_xor_xor_cancel]
    exact pc_double (i % 8) (by omega) (j % 8) (by omega) hm
  · unfold flipBit
    rw [getD_set_ne B (i / 8) (j / 8)
        (Nat.xor (B.getD (i / 8) 0) (2 ^ (i % 8))) hk,
      bitDiff_set_set_ne B (i / 8) _ (j / 8) _ hk hki hkj,
      xor_xor_cancel, xor_xor_cancel,
      pc_single (i % 8) (by omega), pc_single (j % 8) (by omega)]

theorem no_invisible_flip (s : List Char) (i j : ℕ) (hij : i ≠ j)
    (hi : i < 8 * (utf8Encode s).length)
    (hj : j < 8 * (utf8Encode s).length) :
    pyDecode (flipBit (flipBit (utf8Encode s) i) j) ≠ s := by
  intro heq
  have hlen : (flipBit (flipBit (utf8Encode s) i) j).length =
      (utf8Encode s).length := flip2_length _ i j
  have hseg : SegList (flipBit (flipBit (utf8Encode s) i) j)
      (pyDecode (flipBit (flipBit (utf8Encode s) i) j)) :=
    decode_spans _ _ le_rfl
  rw [heq] at hseg
  have hdiff := flip2_bitDiff (utf8Encode s) i j hij hi hj
  have hXB := seg_bitDiff_eq hseg hlen (by rw [hdiff]; omega)
  rw [hXB, bitDiff_self] at hdiff
  exact absurd hdiff (by omega)

theorem utf8Encode_length_pos {s : List Char} (h : s ≠ []) :
    0 < (utf8Encode s).length := by
  cases s with
  | nil => exact absurd rfl h
  | cons c t =>
    rw [utf8Encode_cons]
    rcases he : encChar c.toNat with _ | ⟨a, b⟩
    · exact absurd he (encChar_ne_nil c.toNat)
    · simp

/-- C3.  corrupt_message at error rate 1.0 on a nonempty command always
returns a command string different from the input, for every outcome of
the internal randomness (the random.sample draw of two distinct in-range
bit indices, the fallback position and alphabet choice): in fact flipping
two distinct bits of the UTF-8 encoding never decodes back to the
original string under errors='replace' — an invisible flip would force
every replacement-character span to be a three-byte invalid subpart or
the U+FFFD encoding itself, and the only three-byte invalid subparts are
truncated four-byte sequences, whose lead byte is at least three bit
flips away from 0xEF — so the fallback substitution branch is never even
reached, and the returned text is the genuinely corrupted decode. -/
theorem C3_theorem (rnd : CorruptRand) (c : Cmd)
    (hne : c.command ≠ [])
    (hlen : rnd.bits.length = min 2 (8 * (utf8Encode c.command).length))
    (hnodup : rnd.bits.Nodup)
    (hbound : ∀ b ∈ rnd.bits, b < 8 * (utf8Encode c.command).length)
    (hr : rnd.randFloat < 1) :
    (corrupt_message rnd c 1).command ≠ c.command ∧
    pyDecode (flipBits (utf8Encode c.command) rnd.bits) ≠ c.command := by
  have hLpos : 0 < (utf8Encode c.command).length := utf8Encode_length_pos hne
  have h2 : rnd.bits.length = 2 := by
    rw [hlen]
    omega
  obtain ⟨i, j, hb⟩ := List.length_eq_two.mp h2
  have hij : i ≠ j := by
    rw [hb] at hnodup
    simp at hnodup
    exact hnodup
  have hi : i < 8 * (utf8Encode c.command).length :=
    hbound i (by rw [hb]; simp)
  have hj : j < 8 * (utf8Encode c.command).length :=
    hbound j (by rw [hb]; simp)
  have hflip : flipBits (utf8Encode c.command) rnd.bits =
      flipBit (flipBit (utf8Encode c.command) i) j := by
    rw [hb]
    rfl
  have hkey : pyDecode (flipBits (utf8Encode c.command) rnd.bits) ≠
      c.command := by
    rw [hflip]
    exact no_invisible_flip c.command i j hij hi hj
  refine ⟨?_, hkey⟩
  simp only [corrupt_message]
  rw [if_pos ⟨hr, List.length_pos.mpr hne⟩, if_neg hkey]
  exact hkey

/-- C3 witness: the theorem applied to the command "AB" with bits 0 and 9
flipped (giving "@@"), every hypothesis discharged by computation. -/
theorem C3_witness :
    (corrupt_message ⟨0, [0, 9], 0, 0⟩
      ⟨"AB".toList, "ed25519".toList, Sig.badHex⟩ 1).command ≠
      "AB".toList ∧
    (corrupt_message ⟨0, [0, 9], 0, 0⟩
      ⟨"AB".toList, "ed25519".toList, Sig.badHex⟩ 1).command =
      "@@".toList := by
  refine ⟨(C3_theorem ⟨0, [0, 9], 0, 0⟩
    ⟨"AB".toList, "ed25519".toList, Sig.badHex⟩
    (by decide) (by decide) (by decide) (by decide) (by norm_num)).1,
    by decide⟩

end SCOPE
